import Mathlib

set_option maxRecDepth 4000

/-!
Verification of the AuraOS foreman orchestration core (plan compilation via a
text-repair pipeline, and sequential plan execution with fail-fast halting).
The definitions below are a shallow embedding of the Python source
`aura_core` foreman module: `call_llm`'s cleanup/repair pipeline,
`execute_step`'s payload substitution, capability dispatch and result
classification, and `handle_request`'s step loop.

Strings are modelled as `List Char`; Python's `str.replace`, `str.find`,
`str.rfind`, `str.strip`, `str.lower` and `str.startswith` are given
executable counterparts below.
-/

namespace AuraCore

/-- Single-quote character `'`. -/
def sq : Char := Char.ofNat 39

/-- Double-quote character `"`. -/
def dq : Char := Char.ofNat 34

/-- Open-brace character. -/
def obr : Char := Char.ofNat 123

/-- Close-brace character. -/
def cbr : Char := Char.ofNat 125

/-- Backtick character. -/
def btk : Char := Char.ofNat 96

/-- Asterisk character. -/
def ast : Char := Char.ofNat 42

/-- Backslash character. -/
def bsl : Char := Char.ofNat 92

/-- A Lean string literal as a character list. -/
def strL (s : String) : List Char := s.data

/-- The whitespace set of Python's `str.strip` (ASCII portion). -/
def isPySpace (c : Char) : Bool :=
  c = ' ' || c = '\t' || c = '\n' || c = '\r' || c = Char.ofNat 11 || c = Char.ofNat 12

/-- Python `str.strip`: drop leading and trailing whitespace. -/
def trimL (s : List Char) : List Char :=
  ((s.dropWhile isPySpace).reverse.dropWhile isPySpace).reverse

/-- Python `str.lower` (ASCII case folding; non-letters unchanged). -/
def toLowerL (s : List Char) : List Char := s.map Char.toLower

/-- Python `str.startswith` with a tuple of candidates. -/
def startsWithAny (s : List Char) (ps : List (List Char)) : Bool :=
  ps.any fun p => p.isPrefixOf s

/-- Fuel-driven worker for `replaceL` (structural in the fuel, so that the
kernel can evaluate it). -/
def replaceGo (p q : List Char) : Nat → List Char → List Char
  | 0, s => s
  | _ + 1, [] => []
  | fuel + 1, c :: rest =>
    if p.isPrefixOf (c :: rest) then q ++ replaceGo p q fuel (rest.drop (p.length - 1))
    else c :: replaceGo p q fuel rest

/-- Python `s.replace(p, q)` for a non-empty pattern `p`: replace the
left-to-right non-overlapping occurrences of `p` in `s` by `q`.
(For `p = []` this model differs from Python's empty-pattern semantics;
the source only ever replaces non-empty literals.) -/
def replaceL (p q s : List Char) : List Char := replaceGo p q s.length s

/-- Python `s.find(c)` (as an `Option` instead of `-1`): index of the first
occurrence of `c`. -/
def findPos (c : Char) : List Char → Option Nat
  | [] => none
  | d :: t => if d = c then some 0 else (findPos c t).map (· + 1)

/-- Python `s.rfind(c)` (as an `Option` instead of `-1`): index of the last
occurrence of `c`. -/
def rfindPos (c : Char) : List Char → Option Nat
  | [] => none
  | d :: t =>
    match rfindPos c t with
    | some i => some (i + 1)
    | none => if d = c then some 0 else none

/-- `occursB p s` is true when `p` occurs as a contiguous substring of `s`. -/
def occursB (p : List Char) : List Char → Bool
  | [] => p.isPrefixOf []
  | c :: t => p.isPrefixOf (c :: t) || occursB p t

/-- JSON-compatible runtime values flowing between the planner and the
executor (Python `None`/`bool`/`int`/`str`/`list`/`dict`). Numbers are
restricted to integers in this model. -/
inductive Value where
  | str : List Char → Value
  | num : Int → Value
  | bool : Bool → Value
  | null : Value
  | arr : List Value → Value
  | obj : List (List Char × Value) → Value

/-- Python `v is None`. -/
def isNull : Value → Bool
  | .null => true
  | _ => false

mutual
/-- Python `repr` of a value, as used by `str` on list/dict elements. -/
def pyRepr : Value → List Char
  | .str s => sq :: (s ++ [sq])
  | .num n => strL (toString n)
  | .bool true => strL "True"
  | .bool false => strL "False"
  | .null => strL "None"
  | .arr xs => '[' :: (pyReprList xs ++ [']'])
  | .obj kvs => obr :: (pyReprKVs kvs ++ [cbr])

/-- `repr` of list elements, comma separated. -/
def pyReprList : List Value → List Char
  | [] => []
  | [x] => pyRepr x
  | x :: y :: xs => pyRepr x ++ strL ", " ++ pyReprList (y :: xs)

/-- `repr` of dict entries, comma separated. -/
def pyReprKVs : List (List Char × Value) → List Char
  | [] => []
  | [(k, v)] => (sq :: (k ++ [sq])) ++ strL ": " ++ pyRepr v
  | (k, v) :: kv :: rest =>
    (sq :: (k ++ [sq])) ++ strL ": " ++ pyRepr v ++ strL ", " ++ pyReprKVs (kv :: rest)
end

/-- Python `str(v)`: identity on strings, `repr`-style otherwise. -/
def pyStr : Value → List Char
  | .str s => s
  | v => pyRepr v

/-- The reserved data-flow sentinel. -/
def sentinel : List Char := strL "$PREV_OUTPUT"

mutual
/-- The source's `replace_prev_output`: recursively walk a payload and
replace every string equal to `"$PREV_OUTPUT"` by `str(output)`
(empty string when the previous output is `None`). -/
def replacePrevOutput : Value → Value → Value
  | .obj kvs, out => .obj (replacePrevOutputKVs kvs out)
  | .arr xs, out => .arr (replacePrevOutputList xs out)
  | .str s, out =>
    if s = sentinel then .str (if isNull out then [] else pyStr out) else .str s
  | v, _ => v

/-- `replace_prev_output` mapped over list elements. -/
def replacePrevOutputList : List Value → Value → List Value
  | [], _ => []
  | x :: xs, out => replacePrevOutput x out :: replacePrevOutputList xs out

/-- `replace_prev_output` mapped over dict values (keys untouched). -/
def replacePrevOutputKVs : List (List Char × Value) → Value → List (List Char × Value)
  | [], _ => []
  | (k, v) :: rest, out => (k, replacePrevOutput v out) :: replacePrevOutputKVs rest out
end

mutual
/-- Specification-side description of the substitution walk: apply a string
transformation `f` to every string value at every nesting depth, leaving
mapping keys, non-string scalars and the structure shape unchanged. -/
def mapStrings (f : List Char → List Char) : Value → Value
  | .str s => .str (f s)
  | .arr xs => .arr (mapStringsList f xs)
  | .obj kvs => .obj (mapStringsKVs f kvs)
  | v => v

/-- `mapStrings` over list elements. -/
def mapStringsList (f : List Char → List Char) : List Value → List Value
  | [] => []
  | x :: xs => mapStrings f x :: mapStringsList f xs

/-- `mapStrings` over dict entries. -/
def mapStringsKVs (f : List Char → List Char) :
    List (List Char × Value) → List (List Char × Value)
  | [] => []
  | (k, v) :: rest => (k, mapStrings f v) :: mapStringsKVs f rest
end

/-- The string a sentinel occurrence is replaced by, given the previous
output (spec side): `str(prev)`, or the empty string when there is none. -/
def prevOutputText (out : Value) : List Char :=
  if isNull out then [] else pyStr out

/-- Result classification of `execute_step` (source lines 252-256): a string
whose stripped, lowercased form starts with `"error:"` or the failure glyph
is Failed; everything else is Succeeded. -/
def classifyOutput (output : Value) : Value × Bool :=
  match output with
  | .str s =>
    if startsWithAny (toLowerL (trimL s)) [strL "error:", strL "❌"] then (output, false)
    else if startsWithAny (toLowerL (trimL s))
        [strL "success:", strL "✅", strL "--- presentation saved"] then (output, true)
    else (output, true)
  | _ => (output, true)

/-- A plan step as consumed by `execute_step`: the result of `.get` on the
step dict. `apprentice` models the tool reference when it is a string or
absent (the claims only concern such steps); `payload` is the raw payload
value, `Value.null` standing for Python `None` (a missing key and an
explicit `null` are indistinguishable through `dict.get`). -/
structure Step where
  apprentice : Option (List Char)
  payload : Value

/-- The capability-registry namespace prepended to short tool names. -/
def nsFull : List Char := strL "aura_core.apprentices."

/-- Source lines 228-232: prepend the full path when a short name is given.
An empty or missing name is left for the invalid-step check. -/
def normalizeModule : Option (List Char) → Option (List Char)
  | none => none
  | some m => if m ≠ [] ∧ ¬(nsFull.isPrefixOf m = true) then some (nsFull ++ m) else some m

/-- Outcome of resolving a module and calling its `run` entry point:
a returned value, or one of the exception classes the source catches. -/
inductive CapOutcome where
  | ok (v : Value)
  | importError
  | noRunAttr (msg : List Char)
  | exn (msg : List Char)

/-- The external capability registry: module name and payload to outcome. -/
def Cap := List Char → Value → CapOutcome

/-- `ImportError` message from source line 257. -/
def errCouldNotFind (m : List Char) : List Char :=
  strL "Error: Could not find module '" ++ m ++ strL "'."

/-- `AttributeError` message from source lines 258-260. -/
def errNoRun (m ae : List Char) : List Char :=
  strL "Critical error: Module '" ++ m ++ strL "' does not have a 'run' function. " ++ ae

/-- Generic exception message from source lines 261-263. -/
def errExn (m e : List Char) : List Char :=
  strL "Critical error executing " ++ m ++ strL ": " ++ e

/-- The source's `execute_step`. Returns the `(output, success)` pair
(`Value.null` models the Python `None` output of an invalid step) together
with the list of capability invocations performed, so that theorems can
speak about which calls were made. -/
def executeStep (step : Step) (previousOutput : Value) (cap : Cap) :
    Value × Bool × List (List Char × Value) :=
  match normalizeModule step.apprentice with
  | none => (.null, false, [])
  | some m =>
    if m = [] ∨ isNull step.payload then (.null, false, [])
    else
      let payload := replacePrevOutput step.payload previousOutput
      match cap m payload with
      | .ok output => ((classifyOutput output).1, (classifyOutput output).2, [(m, payload)])
      | .importError => (.str (errCouldNotFind m), false, [(m, payload)])
      | .noRunAttr ae => (.str (errNoRun m ae), false, [(m, payload)])
      | .exn e => (.str (errExn m e), false, [(m, payload)])

/-- Overall result of `handle_request`. -/
inductive RunResult where
  | completed
  | failedAt (stepIndex : Nat) (output : Value)
  | noPlan

/-- The step loop of `handle_request` (source lines 273-290), instrumented
with the 1-based indices of the steps the loop actually processed. -/
def runTrace (cap : Cap) : List Step → Value → Nat → RunResult × List Nat
  | [], _, _ => (.completed, [])
  | step :: rest, prev, i =>
    let r := executeStep step prev cap
    if r.2.1 then
      ((runTrace cap rest r.1 (i + 1)).1, (i + 1) :: (runTrace cap rest r.1 (i + 1)).2)
    else (.failedAt (i + 1) r.1, [i + 1])

/-- The previous-output value after running a list of steps when every one
of them succeeds (`none` when some step fails). -/
def chainSucc (cap : Cap) : List Step → Value → Option Value
  | [], prev => some prev
  | step :: rest, prev =>
    let r := executeStep step prev cap
    if r.2.1 then chainSucc cap rest r.1 else none

/-- JSON whitespace. -/
def isJsonWs (c : Char) : Bool := c = ' ' || c = '\t' || c = '\n' || c = '\r'

/-- Drop leading JSON whitespace. -/
def skipWs (s : List Char) : List Char := s.dropWhile isJsonWs

/-- Parse the body of a JSON string after the opening quote, returning the
decoded content and the rest after the closing quote. (`\\uXXXX` escapes
are not modelled; inputs using them fail to parse.) -/
def parseStringBody : List Char → Option (List Char × List Char)
  | [] => none
  | c :: rest =>
    if c = dq then some ([], rest)
    else if c = bsl then
      match rest with
      | [] => none
      | e :: rest2 =>
        let dec : Option Char :=
          if e = dq then some dq
          else if e = bsl then some bsl
          else if e = '/' then some '/'
          else if e = 'n' then some '\n'
          else if e = 't' then some '\t'
          else if e = 'r' then some '\r'
          else if e = 'b' then some (Char.ofNat 8)
          else if e = 'f' then some (Char.ofNat 12)
          else none
        match dec with
        | some d => (parseStringBody rest2).map fun vr => (d :: vr.1, vr.2)
        | none => none
    else (parseStringBody rest).map fun vr => (c :: vr.1, vr.2)

/-- Numeric value of a digit character. -/
def digitVal (c : Char) : Nat := c.toNat - '0'.toNat

/-- Parse a non-empty run of digits. -/
def parseDigits (s : List Char) : Option (Nat × List Char) :=
  let ds := s.takeWhile Char.isDigit
  if ds = [] then none
  else some (ds.foldl (fun a c => a * 10 + digitVal c) 0, s.dropWhile Char.isDigit)

/-- Whether the rest of the input starts a fraction or exponent (the model
restricts JSON numbers to integers and rejects these). -/
def startsFrac : List Char → Bool
  | [] => false
  | c :: _ => c = '.' || c = 'e' || c = 'E'

/-- Parse a JSON integer literal. -/
def parseNumber (s : List Char) : Option (Value × List Char) :=
  match s with
  | '-' :: rest =>
    (parseDigits rest).bind fun nr =>
      if startsFrac nr.2 then none else some (.num (-(nr.1 : Int)), nr.2)
  | _ =>
    (parseDigits s).bind fun nr =>
      if startsFrac nr.2 then none else some (.num (nr.1 : Int), nr.2)

mutual
/-- Fuel-driven JSON value parser (the model of `json.loads`). -/
def parseValue : Nat → List Char → Option (Value × List Char)
  | 0, _ => none
  | fuel + 1, s0 =>
    let s := skipWs s0
    match s with
    | [] => none
    | c :: rest =>
      if c = dq then (parseStringBody rest).map fun vr => (Value.str vr.1, vr.2)
      else if c = '[' then
        match skipWs rest with
        | ']' :: rest2 => some (.arr [], rest2)
        | _ => (parseElems fuel rest).map fun vr => (Value.arr vr.1, vr.2)
      else if c = obr then
        match skipWs rest with
        | d :: rest2 =>
          if d = cbr then some (.obj [], rest2)
          else (parseMembers fuel rest).map fun vr => (Value.obj vr.1, vr.2)
        | [] => none
      else if (strL "true").isPrefixOf s then some (.bool true, s.drop 4)
      else if (strL "false").isPrefixOf s then some (.bool false, s.drop 5)
      else if (strL "null").isPrefixOf s then some (.null, s.drop 4)
      else parseNumber s

/-- Parse comma-separated array elements up to the closing bracket. -/
def parseElems : Nat → List Char → Option (List Value × List Char)
  | 0, _ => none
  | fuel + 1, s =>
    (parseValue fuel s).bind fun vr =>
      match skipWs vr.2 with
      | c :: rest =>
        if c = ',' then (parseElems fuel rest).map fun xr => (vr.1 :: xr.1, xr.2)
        else if c = ']' then some ([vr.1], rest)
        else none
      | [] => none

/-- Parse comma-separated object members up to the closing brace. -/
def parseMembers : Nat → List Char → Option (List (List Char × Value) × List Char)
  | 0, _ => none
  | fuel + 1, s =>
    match skipWs s with
    | c :: rest =>
      if c = dq then
        (parseStringBody rest).bind fun kr =>
          match skipWs kr.2 with
          | d :: rest2 =>
            if d = ':' then
              (parseValue fuel rest2).bind fun vr =>
                match skipWs vr.2 with
                | e :: rest3 =>
                  if e = ',' then
                    (parseMembers fuel rest3).map fun mr => ((kr.1, vr.1) :: mr.1, mr.2)
                  else if e = cbr then some ([(kr.1, vr.1)], rest3)
                  else none
                | [] => none
            else none
          | [] => none
      else none
    | [] => none
end

/-- The model of `json.loads`: parse a complete JSON document. -/
def parseJson (s : List Char) : Option Value :=
  match parseValue (s.length + 1) s with
  | some vr => if skipWs vr.2 = [] then some vr.1 else none
  | none => none

/-- Key presence in a parsed JSON object (Python `key in dict`). -/
def hasKey (kvs : List (List Char × Value)) (k : List Char) : Bool :=
  kvs.any fun kv => kv.1 == k

/-- Structural validation of one plan item (source lines 207-209): it must
be a mapping containing both the `"apprentice"` and the `"payload"` key. -/
def isValidPlanItem : Value → Bool
  | .obj kvs => hasKey kvs (strL "apprentice") && hasKey kvs (strL "payload")
  | _ => false

/-- Structural validation of the parsed plan (source lines 206-211): it must
be a sequence of valid items; the raised `ValueError` is modelled as `none`. -/
def validateItems : Value → Option (List Value)
  | .arr items => if items.all isValidPlanItem then some items else none
  | _ => none

/-- Brace-balance repair (source lines 196-199): if `{` outnumbers `}`,
append the difference in `}` characters. -/
def braceBalance (s : List Char) : List Char :=
  let o := s.count obr
  let c := s.count cbr
  if o > c then s ++ List.replicate (o - c) cbr else s

/-- Literal normalization (source lines 175-177): the six sequential
replacements lowercasing `True`/`False`/`None` after `": "` or `", "`. -/
def normalizeLiterals (s : List Char) : List Char :=
  replaceL (strL ", None") (strL ", null")
    (replaceL (strL ": None") (strL ": null")
      (replaceL (strL ", False") (strL ", false")
        (replaceL (strL ": False") (strL ": false")
          (replaceL (strL ", True") (strL ", true")
            (replaceL (strL ": True") (strL ": true") s)))))

/-- Specification-side reading of the literal normalization: one
left-to-right pass that, wherever one of the six sequences `": True"`,
`", True"`, `": False"`, `", False"`, `": None"`, `", None"` starts, emits
its lowercased form and skips past it, and copies every other character
unchanged. -/
def lowerGo : Nat → List Char → List Char
  | 0, s => s
  | _ + 1, [] => []
  | fuel + 1, c :: rest =>
    if (strL ": True").isPrefixOf (c :: rest) then
      strL ": true" ++ lowerGo fuel ((c :: rest).drop 6)
    else if (strL ", True").isPrefixOf (c :: rest) then
      strL ", true" ++ lowerGo fuel ((c :: rest).drop 6)
    else if (strL ": False").isPrefixOf (c :: rest) then
      strL ": false" ++ lowerGo fuel ((c :: rest).drop 7)
    else if (strL ", False").isPrefixOf (c :: rest) then
      strL ", false" ++ lowerGo fuel ((c :: rest).drop 7)
    else if (strL ": None").isPrefixOf (c :: rest) then
      strL ": null" ++ lowerGo fuel ((c :: rest).drop 6)
    else if (strL ", None").isPrefixOf (c :: rest) then
      strL ", null" ++ lowerGo fuel ((c :: rest).drop 6)
    else c :: lowerGo fuel rest

/-- The single simultaneous rewriting pass, run with enough fuel. -/
def lowerLiteralPass (s : List Char) : List Char := lowerGo s.length s

/-- Cleanup applied to the sliced bracket span (source lines 173-183):
fence and emphasis stripping, literal normalization, the no-op `" null"`
replacement, single-to-double quote rewriting, and strip. -/
def cleanupBracket (u : List Char) : List Char :=
  trimL (replaceL [sq] [dq] (replaceL (strL " null") (strL " null")
    (normalizeLiterals
      (replaceL (strL "**") []
        (replaceL (strL "```") []
          (replaceL (strL "```json") [] u))))))

/-- Cleanup applied when no bracket pair is found (source lines 187-190). -/
def cleanupFallback (u : List Char) : List Char :=
  replaceL [sq] [dq] (replaceL (strL " null") (strL " null")
    (replaceL (strL ": None") (strL ": null")
      (replaceL (strL ": False") (strL ": false")
        (replaceL (strL ": True") (strL ": true") u))))

/-- Source lines 166-170: slice from the first `[` to the last `]` when such
a pair exists in the right order. -/
def sliceToBrackets (raw : List Char) : Option (List Char) :=
  match findPos '[' raw, rfindPos ']' raw with
  | some i, some j => if i < j then some ((raw.drop i).take (j - i + 1)) else none
  | _, _ => none

/-- The full JSON-repair pipeline of `call_llm` (source lines 166-201):
bracket slicing (or the fallback cleanup), then brace balancing. -/
def repairPlanText (raw : List Char) : List Char :=
  braceBalance
    (match sliceToBrackets raw with
     | some u => cleanupBracket u
     | none => cleanupFallback raw)

/-- `call_llm` from the model reply onwards: repair, parse, validate.
Parse and validation errors (the caught `JSONDecodeError`/`ValueError`)
are modelled as `none`. -/
def callLLM (rawOutput : List Char) : Option (List Value) :=
  (parseJson (repairPlanText rawOutput)).bind validateItems

/-- Last-wins association lookup (Python dict semantics for `dict.get`). -/
def lookupKey : List (List Char × Value) → List Char → Option Value
  | [], _ => none
  | (k, v) :: rest, key =>
    match lookupKey rest key with
    | some r => some r
    | none => if k == key then some v else none

/-- Python `step.get(key)`: `None` for a missing key or a non-dict. -/
def dictGet (v : Value) (key : List Char) : Value :=
  match v with
  | .obj kvs =>
    match lookupKey kvs key with
    | some r => r
    | none => .null
  | _ => .null

/-- View of a validated plan item as the `Step` consumed by `execute_step`.
A non-string tool reference is modelled as absent (outside this fragment
Python would raise on `startswith` before the failure boundary). -/
def toStep (item : Value) : Step :=
  { apprentice :=
      match dictGet item (strL "apprentice") with
      | .str s => some s
      | _ => none
    payload := dictGet item (strL "payload") }

/-- `handle_request` (source lines 268-291): plan, gate on a falsy plan,
then run the step loop. -/
def handleRequest (cap : Cap) (rawReply : List Char) : RunResult × List Nat :=
  match callLLM rawReply with
  | none => (.noPlan, [])
  | some items =>
    if items.isEmpty then (.noPlan, [])
    else runTrace cap (items.map toStep) .null 0

/-- A small concrete capability registry used by concrete instances:
module `a` returns a success text, module `b` returns a result beginning
with the error marker, module `x` raises, and anything else returns a
list of file names. -/
def demoCap : Cap := fun m _ =>
  if m = strL "aura_core.apprentices.a" then .ok (.str (strL "ok a"))
  else if m = strL "aura_core.apprentices.b" then .ok (.str (strL "Error: boom"))
  else if m = strL "aura_core.apprentices.x" then .exn (strL "boom")
  else .ok (.arr [.str (strL "a.txt"), .str (strL "b.txt")])

/-- A concrete step with a short tool name and an empty payload mapping. -/
def demoStep (name : String) : Step := ⟨some (strL name), .obj []⟩

/-! ### Basic lemmas about the string primitives -/

theorem len_drop_le (l : List Char) (n : Nat) : (l.drop n).length ≤ l.length := by
  rw [List.length_drop]; omega

theorem replaceGo_eq (p q : List Char) :
    ∀ f s, s.length ≤ f → replaceGo p q f s = replaceL p q s := by
  intro f
  induction f using Nat.strong_induction_on with
  | _ f ih =>
    intro s hs
    match f, s with
    | 0, s =>
      interval_cases hl : s.length
      · rw [List.length_eq_zero] at hl
        subst hl; rfl
    | f + 1, [] => rfl
    | f + 1, c :: rest =>
      simp only [List.length_cons, Nat.add_le_add_iff_right] at hs
      show replaceGo p q (f + 1) (c :: rest) = replaceGo p q (rest.length + 1) (c :: rest)
      simp only [replaceGo]
      by_cases hpm : p.isPrefixOf (c :: rest) = true
      · simp only [hpm, if_true]
        have h1 : replaceGo p q f (rest.drop (p.length - 1)) =
            replaceL p q (rest.drop (p.length - 1)) := by
          apply ih f (Nat.lt_succ_self f)
          exact le_trans (len_drop_le _ _) hs
        have h2 : replaceGo p q rest.length (rest.drop (p.length - 1)) =
            replaceL p q (rest.drop (p.length - 1)) := by
          apply ih rest.length (Nat.lt_succ_of_le hs)
          exact len_drop_le _ _
        rw [h1, h2]
      · simp only [hpm, if_false, Bool.false_eq_true]
        have h1 : replaceGo p q f rest = replaceL p q rest :=
          ih f (Nat.lt_succ_self f) rest hs
        have h2 : replaceGo p q rest.length rest = replaceL p q rest :=
          ih rest.length (Nat.lt_succ_of_le hs) rest le_rfl
        rw [h1, h2]

theorem replaceL_nil (p q : List Char) : replaceL p q [] = [] := rfl

theorem replaceL_cons_pos (p q : List Char) (c : Char) (t : List Char)
    (h : p.isPrefixOf (c :: t) = true) :
    replaceL p q (c :: t) = q ++ replaceL p q (t.drop (p.length - 1)) := by
  show replaceGo p q (t.length + 1) (c :: t) = _
  simp only [replaceGo, h, if_true]
  rw [replaceGo_eq p q t.length _ (len_drop_le _ _)]

theorem replaceL_cons_neg (p q : List Char) (c : Char) (t : List Char)
    (h : p.isPrefixOf (c :: t) = false) :
    replaceL p q (c :: t) = c :: replaceL p q t := by
  show replaceGo p q (t.length + 1) (c :: t) = _
  simp only [replaceGo, h, Bool.false_eq_true, if_false]
  rw [replaceGo_eq p q t.length t le_rfl]

theorem prefOf_iff {p s : List Char} : p.isPrefixOf s = true ↔ p <+: s := by
  induction p generalizing s with
  | nil => simp [List.isPrefixOf]
  | cons a as ih =>
    cases s with
    | nil => simp [List.isPrefixOf]
    | cons b bs =>
      simp only [List.isPrefixOf, Bool.and_eq_true, beq_iff_eq, List.cons_prefix_cons]
      exact and_congr Iff.rfl ih

theorem prefOf_append (p v : List Char) : p.isPrefixOf (p ++ v) = true :=
  prefOf_iff.2 (List.prefix_append p v)

theorem replaceL_match (p q : List Char) (hp : p ≠ []) (v : List Char) :
    replaceL p q (p ++ v) = q ++ replaceL p q v := by
  match p, hp with
  | c :: p', _ =>
    have h : (c :: p').isPrefixOf (c :: (p' ++ v)) = true := prefOf_append _ _
    have := replaceL_cons_pos (c :: p') q c (p' ++ v) h
    simpa using this

theorem replaceL_skip (c₀ : Char) (p' q : List Char) (u x : List Char) (hc : c₀ ∉ u) :
    replaceL (c₀ :: p') q (u ++ x) = u ++ replaceL (c₀ :: p') q x := by
  induction u with
  | nil => rfl
  | cons d u' ih =>
    have hd : c₀ ≠ d := fun h => hc (h ▸ List.mem_cons_self d u')
    have hpref : (c₀ :: p').isPrefixOf (d :: (u' ++ x)) = false := by
      simp [List.isPrefixOf, beq_eq_false_iff_ne, hd]
    rw [List.cons_append, replaceL_cons_neg _ _ _ _ hpref,
      ih (fun h => hc (List.mem_cons_of_mem d h))]
    simp

theorem occursB_iff {p s : List Char} : occursB p s = true ↔ p <:+: s := by
  induction s with
  | nil =>
    show p.isPrefixOf [] = true ↔ _
    rw [prefOf_iff]
    constructor
    · intro h; exact h.isInfix
    · intro h; rw [List.infix_nil] at h; subst h; exact List.nil_prefix
  | cons c t ih =>
    simp only [occursB, Bool.or_eq_true, prefOf_iff, ih, List.infix_cons_iff]

theorem replaceL_noocc (p q s : List Char) (h : occursB p s = false) :
    replaceL p q s = s := by
  induction s with
  | nil => rfl
  | cons c t ih =>
    simp only [occursB, Bool.or_eq_false_iff] at h
    rw [replaceL_cons_neg _ _ _ _ h.1, ih h.2]

theorem occursB_subset {p s : List Char} (h : occursB p s = true) : ∀ c ∈ p, c ∈ s :=
  fun _ hc => (occursB_iff.1 h).sublist.subset hc

theorem noocc_of_not_mem {c₀ : Char} {p' s : List Char} (hc : c₀ ∉ s) :
    occursB (c₀ :: p') s = false := by
  cases h : occursB (c₀ :: p') s with
  | false => rfl
  | true => exact absurd (occursB_subset h c₀ (List.mem_cons_self _ _)) hc

theorem occursB_mono {p s t : List Char} (hst : s <:+: t) (h : occursB p s = true) :
    occursB p t = true :=
  occursB_iff.2 ((occursB_iff.1 h).trans hst)

theorem occursB_mono_false {p s t : List Char} (hst : s <:+: t)
    (h : occursB p t = false) : occursB p s = false := by
  cases ho : occursB p s with
  | false => rfl
  | true => rw [occursB_mono hst ho] at h; simp at h

theorem trimL_infix (s : List Char) : trimL s <:+: s := by
  have h1 : s.dropWhile isPySpace <:+ s := List.dropWhile_suffix isPySpace
  have h2 : (s.dropWhile isPySpace).reverse.dropWhile isPySpace <:+
      (s.dropWhile isPySpace).reverse := List.dropWhile_suffix isPySpace
  obtain ⟨w, hw⟩ := h2
  have : trimL s <+: s.dropWhile isPySpace := by
    refine ⟨w.reverse, ?_⟩
    have := congrArg List.reverse hw
    simpa [trimL] using this
  exact this.isInfix.trans h1.isInfix

/-! ### Substitution walk: source vs. specification description -/

mutual
theorem rpoSpec : ∀ (v out : Value),
    replacePrevOutput v out =
      mapStrings (fun s => if s = sentinel then prevOutputText out else s) v
  | .obj kvs, out => by
    rw [show replacePrevOutput (.obj kvs) out = .obj (replacePrevOutputKVs kvs out) from rfl,
      rpoSpecKVs kvs out]; rfl
  | .arr xs, out => by
    rw [show replacePrevOutput (.arr xs) out = .arr (replacePrevOutputList xs out) from rfl,
      rpoSpecList xs out]; rfl
  | .str s, out => by
    by_cases h : s = sentinel <;> simp [replacePrevOutput, mapStrings, prevOutputText, h]
  | .num n, out => rfl
  | .bool b, out => rfl
  | .null, out => rfl

theorem rpoSpecList : ∀ (xs : List Value) (out : Value),
    replacePrevOutputList xs out =
      mapStringsList (fun s => if s = sentinel then prevOutputText out else s) xs
  | [], _ => rfl
  | x :: xs, out => by
    rw [show replacePrevOutputList (x :: xs) out =
        replacePrevOutput x out :: replacePrevOutputList xs out from rfl,
      rpoSpec x out, rpoSpecList xs out]; rfl

theorem rpoSpecKVs : ∀ (kvs : List (List Char × Value)) (out : Value),
    replacePrevOutputKVs kvs out =
      mapStringsKVs (fun s => if s = sentinel then prevOutputText out else s) kvs
  | [], _ => rfl
  | (k, v) :: rest, out => by
    rw [show replacePrevOutputKVs ((k, v) :: rest) out =
        (k, replacePrevOutput v out) :: replacePrevOutputKVs rest out from rfl,
      rpoSpec v out, rpoSpecKVs rest out]; rfl
end

/-- C2: Payload substitution — for every step payload and every previous
output, the substitution walk equals the structure-preserving map that
sends exactly the string values equal to `"$PREV_OUTPUT"` (at any nesting
depth, in mapping values or sequence elements) to `str(previous output)`
(the empty string when the previous output is `None`), leaving every
non-sentinel value, every mapping key, and the overall shape unchanged. -/
theorem payload_substitution (payload out : Value) :
    replacePrevOutput payload out =
      mapStrings (fun s => if s = sentinel then prevOutputText out else s) payload :=
  rpoSpec payload out

/-- C10: Exact-match-only sentinel substitution — a string is replaced only
when it is equal to `"$PREV_OUTPUT"` as a whole; any other string (in
particular one merely containing the sentinel as a proper substring) is
passed through unchanged. -/
theorem sentinel_exact_match_only (s : List Char) (out : Value) (h : s ≠ sentinel) :
    replacePrevOutput (.str s) out = .str s := by
  simp [replacePrevOutput, h]

theorem sentinel_exact_match_only_witness :
    strL "result: $PREV_OUTPUT" ≠ sentinel ∧
    replacePrevOutput (.str (strL "result: $PREV_OUTPUT")) (.str (strL "X")) =
      .str (strL "result: $PREV_OUTPUT") :=
  ⟨by decide, sentinel_exact_match_only _ _ (by decide)⟩

/-- C5: Brace-balance repair — when `{` outnumbers `}` the repair appends
exactly the difference in `}` characters at the end, after which the two
counts are equal; otherwise the text is unchanged. -/
theorem brace_balance_repair (s : List Char) :
    (s.count obr > s.count cbr →
      braceBalance s = s ++ List.replicate (s.count obr - s.count cbr) cbr ∧
      (braceBalance s).count obr = (braceBalance s).count cbr) ∧
    (s.count obr ≤ s.count cbr → braceBalance s = s) := by
  constructor
  · intro h
    have hb : braceBalance s = s ++ List.replicate (s.count obr - s.count cbr) cbr := by
      simp [braceBalance, h]
    refine ⟨hb, ?_⟩
    rw [hb, List.count_append, List.count_append, List.count_replicate, List.count_replicate]
    have h1 : (obr == cbr) = false := by decide
    have h2 : (cbr == obr) = false := by decide
    simp only [h1, h2, beq_self_eq_true, if_true, Bool.false_eq_true, if_false]
    omega
  · intro h
    simp [braceBalance, Nat.not_lt.2 h]

theorem brace_balance_repair_witness :
    (braceBalance (strL "[\x7b\x7b]") =
      strL "[\x7b\x7b]" ++ List.replicate 2 cbr) ∧
    braceBalance (strL "[ok]") = strL "[ok]" :=
  ⟨((brace_balance_repair (strL "[\x7b\x7b]")).1 (by decide)).1,
    (brace_balance_repair (strL "[ok]")).2 (by decide)⟩

/-- C3: Result classification — a tool result is classified Failed exactly
when it is a string whose stripped, lowercased form starts with `"error:"`
or the `❌` glyph; strings starting with a success marker and every other
result (non-strings included) are classified Succeeded, and the output
value itself is passed through unchanged. -/
theorem result_classification (v : Value) :
    ((classifyOutput v).2 = false ↔
      ∃ s, v = Value.str s ∧
        startsWithAny (toLowerL (trimL s)) [strL "error:", strL "❌"] = true) ∧
    (classifyOutput v).1 = v := by
  cases v with
  | str s =>
    simp only [classifyOutput]
    split_ifs with h1 h2 <;> simp_all
  | num n => simp [classifyOutput]
  | bool b => simp [classifyOutput]
  | null => simp [classifyOutput]
  | arr xs => simp [classifyOutput]
  | obj kvs => simp [classifyOutput]

/-! ### Executor claims -/

theorem runTrace_fail_aux (cap : Cap) (st : Step) (post : List Step) :
    ∀ (pre : List Step) (n : Nat) (prev0 prev : Value),
      chainSucc cap pre prev0 = some prev →
      (executeStep st prev cap).2.1 = false →
      runTrace cap (pre ++ st :: post) prev0 n =
        (.failedAt (pre.length + n + 1) (executeStep st prev cap).1,
          List.range' (n + 1) (pre.length + 1)) := by
  intro pre
  induction pre with
  | nil =>
    intro n prev0 prev hchain hfail
    have h0 : prev0 = prev := by simpa [chainSucc] using hchain
    subst h0
    simp [runTrace, hfail]
  | cons p ps ih =>
    intro n prev0 prev hchain hfail
    by_cases hsucc : (executeStep p prev0 cap).2.1 = true
    · have hch : chainSucc cap ps (executeStep p prev0 cap).1 = some prev := by
        simpa [chainSucc, hsucc] using hchain
      have hrec := ih (n + 1) (executeStep p prev0 cap).1 prev hch hfail
      have hlen : ps.length + (n + 1) + 1 = (p :: ps).length + n + 1 := by
        simp only [List.length_cons]; omega
      have hrange : List.range' (n + 1) ((p :: ps).length + 1) =
          (n + 1) :: List.range' (n + 1 + 1) (ps.length + 1) := by
        rw [show (p :: ps).length + 1 = ps.length + 1 + 1 from by simp, List.range'_succ]
      simp only [List.cons_append, runTrace, List.append_eq, hsucc, if_true, hrec, hlen,
        hrange]
    · have hf : (executeStep p prev0 cap).2.1 = false := by
        cases hx : (executeStep p prev0 cap).2.1
        · rfl
        · exact absurd hx hsucc
      simp [chainSucc, hf] at hchain

/-- C1: Fail-fast halting — if the steps before `st` all succeed (reaching
previous output `prev`) and `st`'s result is classified Failed, the run
result is Failed at `st`'s 1-based index with `st`'s diagnostic output,
and the loop trace is exactly the indices up to and including that step:
no later step is ever invoked. -/
theorem fail_fast (cap : Cap) (pre : List Step) (st : Step) (post : List Step)
    (prev : Value) (hchain : chainSucc cap pre Value.null = some prev)
    (hfail : (executeStep st prev cap).2.1 = false) :
    runTrace cap (pre ++ st :: post) Value.null 0 =
      (.failedAt (pre.length + 1) (executeStep st prev cap).1,
        List.range' 1 (pre.length + 1)) := by
  have h := runTrace_fail_aux cap st post pre 0 Value.null prev hchain hfail
  simpa using h

theorem fail_fast_witness :
    chainSucc demoCap [demoStep "a"] Value.null = some (.str (strL "ok a")) ∧
    (executeStep (demoStep "b") (.str (strL "ok a")) demoCap).2.1 = false ∧
    runTrace demoCap [demoStep "a", demoStep "b", demoStep "c"] Value.null 0 =
      (.failedAt 2 (executeStep (demoStep "b") (.str (strL "ok a")) demoCap).1,
        List.range' 1 2) :=
  ⟨rfl, rfl, by
    have h := fail_fast demoCap [demoStep "a"] (demoStep "b") [demoStep "c"]
      (.str (strL "ok a")) rfl rfl
    simpa using h⟩

/-- C4: Exception containment — when the capability invocation for a valid
step does not return normally (import failure, missing `run` entry point,
or any raised exception), `execute_step` converts this into a textual
error result with a Failed flag instead of propagating it, and the run
halts reporting that step's 1-based index and the error text. -/
theorem exception_containment (cap : Cap) (pre post : List Step) (st : Step)
    (prev : Value) (m : List Char)
    (hm : normalizeModule st.apprentice = some m) (hm0 : m ≠ [])
    (hpl : isNull st.payload = false)
    (hraise : ∀ v, cap m (replacePrevOutput st.payload prev) ≠ CapOutcome.ok v)
    (hchain : chainSucc cap pre Value.null = some prev) :
    ∃ msg, executeStep st prev cap =
        (.str msg, false, [(m, replacePrevOutput st.payload prev)]) ∧
      runTrace cap (pre ++ st :: post) Value.null 0 =
        (.failedAt (pre.length + 1) (Value.str msg), List.range' 1 (pre.length + 1)) := by
  have key : ∃ msg, executeStep st prev cap =
      (.str msg, false, [(m, replacePrevOutput st.payload prev)]) := by
    cases hco : cap m (replacePrevOutput st.payload prev) with
    | ok v => exact absurd hco (hraise v)
    | importError => exact ⟨errCouldNotFind m, by simp [executeStep, hm, hm0, hpl, hco]⟩
    | noRunAttr ae => exact ⟨errNoRun m ae, by simp [executeStep, hm, hm0, hpl, hco]⟩
    | exn e => exact ⟨errExn m e, by simp [executeStep, hm, hm0, hpl, hco]⟩
  obtain ⟨msg, hex⟩ := key
  refine ⟨msg, hex, ?_⟩
  have h := runTrace_fail_aux cap st post pre 0 Value.null prev hchain (by rw [hex])
  rw [hex] at h
  simpa using h

theorem exception_containment_witness :
    ∃ msg, executeStep (demoStep "x") Value.null demoCap =
        (.str msg, false, [(strL "aura_core.apprentices.x",
          replacePrevOutput (demoStep "x").payload Value.null)]) ∧
      runTrace demoCap [demoStep "x"] Value.null 0 =
        (.failedAt 1 (Value.str msg), List.range' 1 1) := by
  have h := exception_containment demoCap [] [] (demoStep "x") Value.null
    (strL "aura_core.apprentices.x") rfl (by decide) rfl
    (fun v hv => by
      rw [show demoCap (strL "aura_core.apprentices.x")
          (replacePrevOutput (demoStep "x").payload Value.null) =
          CapOutcome.exn (strL "boom") from rfl] at hv
      cases hv)
    rfl
  simpa using h

/-- C8 counterexample: a plan item whose `payload` value is `null` passes
the structural validation unchanged (the validation checks only key
presence), contradicting the claim that validation fails on a step whose
payload value is null. -/
theorem payload_null_passes_validation :
    validateItems (.arr [.obj [(strL "apprentice", .str (strL "file_writer")),
        (strL "payload", .null)]]) =
      some [.obj [(strL "apprentice", .str (strL "file_writer")),
        (strL "payload", .null)]] := rfl

/-- C8 amended: the structural validation guarantees only that every
accepted step is a mapping with the `payload` key present (a null value
passes); it is `execute_step`'s own guard that rejects a step whose
payload is `null`/absent, returning a Failed result without performing
any capability invocation, so no such step reaches a capability. -/
theorem payload_invariant_amended :
    (∀ (parsed : Value) (items : List Value), validateItems parsed = some items →
      ∀ it ∈ items, ∃ kvs, it = Value.obj kvs ∧ hasKey kvs (strL "payload") = true) ∧
    (∀ (st : Step) (prev : Value) (cap : Cap), isNull st.payload = true →
      executeStep st prev cap = (Value.null, false, [])) := by
  constructor
  · intro parsed items hval it hit
    cases parsed with
    | arr items' =>
      simp only [validateItems] at hval
      by_cases hall : items'.all isValidPlanItem = true
      · rw [if_pos hall] at hval
        obtain rfl : items' = items := by simpa using hval
        have hv := List.all_eq_true.1 hall it hit
        cases it with
        | obj kvs =>
          refine ⟨kvs, rfl, ?_⟩
          simpa [isValidPlanItem, Bool.and_eq_true] using (And.right (by
            simpa [isValidPlanItem, Bool.and_eq_true] using hv))
        | str s => simp [isValidPlanItem] at hv
        | num n => simp [isValidPlanItem] at hv
        | bool b => simp [isValidPlanItem] at hv
        | null => simp [isValidPlanItem] at hv
        | arr xs => simp [isValidPlanItem] at hv
      · rw [if_neg hall] at hval; cases hval
    | str s => cases hval
    | num n => cases hval
    | bool b => cases hval
    | null => cases hval
    | obj kvs => cases hval
  · intro st prev cap h
    cases hn : normalizeModule st.apprentice with
    | none => simp [executeStep, hn]
    | some m => simp [executeStep, hn, h]

theorem payload_invariant_amended_witness :
    (∃ kvs, Value.obj [(strL "apprentice", .str (strL "file_writer")),
        (strL "payload", .null)] = Value.obj kvs ∧
      hasKey kvs (strL "payload") = true) ∧
    executeStep ⟨some (strL "b"), Value.null⟩ Value.null demoCap =
      (Value.null, false, []) :=
  ⟨payload_invariant_amended.1
      (.arr [.obj [(strL "apprentice", .str (strL "file_writer")),
        (strL "payload", .null)]])
      [.obj [(strL "apprentice", .str (strL "file_writer")),
        (strL "payload", .null)]] rfl _ (by simp),
    payload_invariant_amended.2 ⟨some (strL "b"), Value.null⟩ Value.null demoCap rfl⟩

/-- C9: Non-empty plan or clean failure — for every model reply, either the
plan compiler produces a non-empty item list and `handle_request` runs
exactly those steps, or (parse failure, validation failure, or an empty
plan) the request ends in the no-plan state with an empty execution
trace: no step is ever executed. -/
theorem plan_or_no_execution (cap : Cap) (reply : List Char) :
    (∃ items, callLLM reply = some items ∧ items ≠ [] ∧
      handleRequest cap reply = runTrace cap (items.map toStep) Value.null 0) ∨
    ((callLLM reply = none ∨ callLLM reply = some []) ∧
      handleRequest cap reply = (RunResult.noPlan, [])) := by
  cases h : callLLM reply with
  | none => exact Or.inr ⟨Or.inl rfl, by simp [handleRequest, h]⟩
  | some items =>
    cases items with
    | nil => exact Or.inr ⟨Or.inr rfl, by simp [handleRequest, h]⟩
    | cons a rest =>
      exact Or.inl ⟨a :: rest, rfl, by simp, by simp [handleRequest, h]⟩

/-! ### Literal normalization (C7) -/

theorem replaceL_concrete_skip (p q : List Char) (w x : List Char)
    (hw : ∀ n, n < w.length → p.isPrefixOf (w.drop n ++ x) = false) :
    replaceL p q (w ++ x) = w ++ replaceL p q x := by
  induction w with
  | nil => simp
  | cons d w' ih =>
    have h0 : p.isPrefixOf (d :: (w' ++ x)) = false := by simpa using hw 0 (by simp)
    rw [List.cons_append, replaceL_cons_neg _ _ _ _ h0,
      ih fun n hn => by simpa using hw (n + 1) (by simpa using hn)]
    simp

theorem replaceL_headfree (c₀ : Char) (p' q x : List Char) (hc : c₀ ∉ x) :
    replaceL (c₀ :: p') q x = x :=
  replaceL_noocc _ _ _ (noocc_of_not_mem hc)

theorem eTc : strL ": True" = [':', ' ', 'T', 'r', 'u', 'e'] := rfl

theorem eTm : strL ", True" = [',', ' ', 'T', 'r', 'u', 'e'] := rfl

theorem eFc : strL ": False" = [':', ' ', 'F', 'a', 'l', 's', 'e'] := rfl

theorem eFm : strL ", False" = [',', ' ', 'F', 'a', 'l', 's', 'e'] := rfl

theorem eNc : strL ": None" = [':', ' ', 'N', 'o', 'n', 'e'] := rfl

theorem eNm : strL ", None" = [',', ' ', 'N', 'o', 'n', 'e'] := rfl

theorem qTc : strL ": true" = [':', ' ', 't', 'r', 'u', 'e'] := rfl

theorem qTm : strL ", true" = [',', ' ', 't', 'r', 'u', 'e'] := rfl

theorem qFc : strL ": false" = [':', ' ', 'f', 'a', 'l', 's', 'e'] := rfl

theorem qFm : strL ", false" = [',', ' ', 'f', 'a', 'l', 's', 'e'] := rfl

theorem qNc : strL ": null" = [':', ' ', 'n', 'u', 'l', 'l'] := rfl

theorem qNm : strL ", null" = [',', ' ', 'n', 'u', 'l', 'l'] := rfl

theorem normalizeLiterals_append (u x : List Char) (hu1 : ':' ∉ u) (hu2 : ',' ∉ u) :
    normalizeLiterals (u ++ x) = u ++ normalizeLiterals x := by
  simp only [normalizeLiterals, eTc, eTm, eFc, eFm, eNc, eNm, qTc, qTm, qFc, qFm, qNc, qNm]
  rw [replaceL_skip ':' _ _ u x hu1, replaceL_skip ',' _ _ u _ hu2,
    replaceL_skip ':' _ _ u _ hu1, replaceL_skip ',' _ _ u _ hu2,
    replaceL_skip ':' _ _ u _ hu1, replaceL_skip ',' _ _ u _ hu2]

theorem nl_mid_colon_true (v : List Char) (hv1 : ':' ∉ v) (hv2 : ',' ∉ v) :
    normalizeLiterals ([':', ' ', 'T', 'r', 'u', 'e'] ++ v) =
      [':', ' ', 't', 'r', 'u', 'e'] ++ v := by
  simp only [normalizeLiterals, eTc, eTm, eFc, eFm, eNc, eNm, qTc, qTm, qFc, qFm, qNc, qNm]
  rw [replaceL_match ([':', ' ', 'T', 'r', 'u', 'e']) _ (by simp) v,
    replaceL_headfree ':' _ _ v hv1]
  rw [replaceL_skip ',' _ _ ([':', ' ', 't', 'r', 'u', 'e']) v (by decide),
    replaceL_headfree ',' _ _ v hv2]
  rw [replaceL_concrete_skip ([':', ' ', 'F', 'a', 'l', 's', 'e']) _
      ([':', ' ', 't', 'r', 'u', 'e']) v
      (by intro n hn; simp only [List.length_cons, List.length_nil] at hn; interval_cases n <;> simp [List.isPrefixOf]),
    replaceL_headfree ':' _ _ v hv1]
  rw [replaceL_skip ',' _ _ ([':', ' ', 't', 'r', 'u', 'e']) v (by decide),
    replaceL_headfree ',' _ _ v hv2]
  rw [replaceL_concrete_skip ([':', ' ', 'N', 'o', 'n', 'e']) _
      ([':', ' ', 't', 'r', 'u', 'e']) v
      (by intro n hn; simp only [List.length_cons, List.length_nil] at hn; interval_cases n <;> simp [List.isPrefixOf]),
    replaceL_headfree ':' _ _ v hv1]
  rw [replaceL_skip ',' _ _ ([':', ' ', 't', 'r', 'u', 'e']) v (by decide),
    replaceL_headfree ',' _ _ v hv2]

theorem nl_mid_comma_true (v : List Char) (hv1 : ':' ∉ v) (hv2 : ',' ∉ v) :
    normalizeLiterals ([',', ' ', 'T', 'r', 'u', 'e'] ++ v) =
      [',', ' ', 't', 'r', 'u', 'e'] ++ v := by
  simp only [normalizeLiterals, eTc, eTm, eFc, eFm, eNc, eNm, qTc, qTm, qFc, qFm, qNc, qNm]
  rw [replaceL_skip ':' _ _ ([',', ' ', 'T', 'r', 'u', 'e']) v (by decide),
    replaceL_headfree ':' _ _ v hv1]
  rw [replaceL_match ([',', ' ', 'T', 'r', 'u', 'e']) _ (by simp) v,
    replaceL_headfree ',' _ _ v hv2]
  rw [replaceL_skip ':' _ _ ([',', ' ', 't', 'r', 'u', 'e']) v (by decide),
    replaceL_headfree ':' _ _ v hv1]
  rw [replaceL_concrete_skip ([',', ' ', 'F', 'a', 'l', 's', 'e']) _
      ([',', ' ', 't', 'r', 'u', 'e']) v
      (by intro n hn; simp only [List.length_cons, List.length_nil] at hn; interval_cases n <;> simp [List.isPrefixOf]),
    replaceL_headfree ',' _ _ v hv2]
  rw [replaceL_skip ':' _ _ ([',', ' ', 't', 'r', 'u', 'e']) v (by decide),
    replaceL_headfree ':' _ _ v hv1]
  rw [replaceL_concrete_skip ([',', ' ', 'N', 'o', 'n', 'e']) _
      ([',', ' ', 't', 'r', 'u', 'e']) v
      (by intro n hn; simp only [List.length_cons, List.length_nil] at hn; interval_cases n <;> simp [List.isPrefixOf]),
    replaceL_headfree ',' _ _ v hv2]

theorem nl_mid_colon_True_nospace (v : List Char) (hv1 : ':' ∉ v) (hv2 : ',' ∉ v) :
    normalizeLiterals ([':', 'T', 'r', 'u', 'e'] ++ v) = [':', 'T', 'r', 'u', 'e'] ++ v := by
  simp only [normalizeLiterals, eTc, eTm, eFc, eFm, eNc, eNm, qTc, qTm, qFc, qFm, qNc, qNm]
  rw [replaceL_concrete_skip ([':', ' ', 'T', 'r', 'u', 'e']) _ ([':', 'T', 'r', 'u', 'e']) v
      (by intro n hn; simp only [List.length_cons, List.length_nil] at hn; interval_cases n <;> simp [List.isPrefixOf]),
    replaceL_headfree ':' _ _ v hv1]
  rw [replaceL_skip ',' _ _ ([':', 'T', 'r', 'u', 'e']) v (by decide),
    replaceL_headfree ',' _ _ v hv2]
  rw [replaceL_concrete_skip ([':', ' ', 'F', 'a', 'l', 's', 'e']) _ ([':', 'T', 'r', 'u', 'e']) v
      (by intro n hn; simp only [List.length_cons, List.length_nil] at hn; interval_cases n <;> simp [List.isPrefixOf]),
    replaceL_headfree ':' _ _ v hv1]
  rw [replaceL_skip ',' _ _ ([':', 'T', 'r', 'u', 'e']) v (by decide),
    replaceL_headfree ',' _ _ v hv2]
  rw [replaceL_concrete_skip ([':', ' ', 'N', 'o', 'n', 'e']) _ ([':', 'T', 'r', 'u', 'e']) v
      (by intro n hn; simp only [List.length_cons, List.length_nil] at hn; interval_cases n <;> simp [List.isPrefixOf]),
    replaceL_headfree ':' _ _ v hv1]
  rw [replaceL_skip ',' _ _ ([':', 'T', 'r', 'u', 'e']) v (by decide),
    replaceL_headfree ',' _ _ v hv2]

/-- C7 counterexample: the repair pipeline rewrites `": Truely"` (where
`True` is part of the longer word `Truely`) to `": truely"`, and leaves
`":True"` (preceded by a colon without a space) unchanged — so the
rewrite is not governed by word boundaries, contradicting the claim. -/
theorem literal_normalization_cex :
    repairPlanText (strL "[: Truely]") = strL "[: truely]" ∧
    repairPlanText (strL "[:True]") = strL "[:True]" := by
  constructor <;> decide


/-! ### Occurrence analysis for the repair pipeline (C6) -/

theorem occursB_nil {p : List Char} (hp : p ≠ []) : occursB p [] = false := by
  cases p with
  | nil => exact absurd rfl hp
  | cons c t => rfl

theorem prefix_append_split : ∀ {p a b : List Char}, p <+: a ++ b →
    p <+: a ∨ ∃ y, p = a ++ y ∧ y <+: b := by
  intro p a
  induction a generalizing p with
  | nil => exact fun h => Or.inr ⟨p, by simp, h⟩
  | cons c a' ih =>
    intro b h
    cases p with
    | nil => exact Or.inl (List.nil_prefix)
    | cons d p' =>
      rw [List.cons_append, List.cons_prefix_cons] at h
      obtain ⟨rfl, h'⟩ := h
      rcases ih h' with h1 | ⟨y, rfl, hy⟩
      · exact Or.inl (List.cons_prefix_cons.2 ⟨rfl, h1⟩)
      · exact Or.inr ⟨y, by simp, hy⟩

theorem occursB_of_pref {p s : List Char} (h : p <+: s) : occursB p s = true :=
  occursB_iff.2 h.isInfix

theorem occursB_append_cases {p a b : List Char} (h : occursB p (a ++ b) = true) :
    occursB p a = true ∨ occursB p b = true ∨
      ∃ k, 0 < k ∧ k < p.length ∧ p.take k <:+ a ∧ (p.drop k).isPrefixOf b = true := by
  induction a with
  | nil => exact Or.inr (Or.inl (by simpa using h))
  | cons c a' ih =>
    rw [List.cons_append] at h
    simp only [occursB, Bool.or_eq_true] at h
    rcases h with hpre | hocc
    · rw [prefOf_iff] at hpre
      rw [show c :: (a' ++ b) = (c :: a') ++ b from rfl] at hpre
      rcases prefix_append_split hpre with h1 | ⟨y, hy, hyb⟩
      · exact Or.inl (occursB_of_pref h1)
      · cases y with
        | nil =>
          rw [List.append_nil] at hy
          exact Or.inl (occursB_of_pref (hy ▸ List.prefix_refl _))
        | cons e y' =>
          refine Or.inr (Or.inr ⟨(c :: a').length, by simp, ?_, ?_, ?_⟩)
          · rw [hy]; simp
          · rw [hy]; simp
          · rw [hy]; simpa using prefOf_iff.2 hyb
    · rcases ih hocc with h1 | h2 | ⟨k, hk0, hkp, htake, hdrop⟩
      · left
        simp only [occursB, Bool.or_eq_true]
        exact Or.inr h1
      · exact Or.inr (Or.inl h2)
      · exact Or.inr (Or.inr ⟨k, hk0, hkp,
          htake.trans (List.suffix_cons c a'), hdrop⟩)

theorem drop_ne_nil_of_lt {p : List Char} {k : Nat} (hk : k < p.length) :
    p.drop k ≠ [] := by
  intro h
  have := congrArg List.length h
  rw [List.length_drop] at this
  simp at this
  omega

/-- Core non-recreation lemma: under the separation conditions between the
pattern of interest `p` and a replacement stage `(p₂, q₂)`, the stage
output contains no occurrence of `p` (given either that the stage is `p`'s
own, or that the input already had none), and a suffix of `p` can be a
prefix of the output only if it already was one of the input. -/
theorem noRecreate (p p₂ q₂ : List Char) (hp : p ≠ []) (hp₂ : p₂ ≠ [])
    (hN1 : occursB p q₂ = false)
    (hN2 : ∀ k, k < p.length → (p.drop k).isPrefixOf q₂ = false)
    (hN3 : occursB q₂ p = false)
    (hN4 : ∀ k, k < p.length → 0 < k → ¬(p.take k <:+ q₂)) :
    ∀ s, (p = p₂ ∨ occursB p s = false) →
      occursB p (replaceL p₂ q₂ s) = false ∧
      (∀ k, k < p.length →
        (p.drop k).isPrefixOf (replaceL p₂ q₂ s) = true →
          (p.drop k).isPrefixOf s = true) := by
  suffices H : ∀ n s, s.length = n → (p = p₂ ∨ occursB p s = false) →
      occursB p (replaceL p₂ q₂ s) = false ∧
      (∀ k, k < p.length →
        (p.drop k).isPrefixOf (replaceL p₂ q₂ s) = true →
          (p.drop k).isPrefixOf s = true) by
    exact fun s => H s.length s rfl
  intro n
  induction n using Nat.strong_induction_on with
  | _ n ih =>
    intro s hlen hin
    match s with
    | [] =>
      refine ⟨by simpa [replaceL_nil] using occursB_nil hp, ?_⟩
      intro k hk hpre
      rw [replaceL_nil] at hpre
      cases hdk : p.drop k with
      | nil => exact absurd hdk (drop_ne_nil_of_lt hk)
      | cons d y' => rw [hdk] at hpre; simp [List.isPrefixOf] at hpre
    | c :: t =>
      by_cases hm : p₂.isPrefixOf (c :: t) = true
      · have heq := replaceL_cons_pos p₂ q₂ c t hm
        have hsuf : t.drop (p₂.length - 1) <:+ c :: t :=
          (List.drop_suffix _ t).trans (List.suffix_cons c t)
        have hlen' : (t.drop (p₂.length - 1)).length < n := by
          have h1 := len_drop_le t (p₂.length - 1)
          have h2 : (c :: t).length = n := hlen
          simp only [List.length_cons] at h2
          omega
        have hin' : p = p₂ ∨ occursB p (t.drop (p₂.length - 1)) = false := by
          rcases hin with h | h
          · exact Or.inl h
          · exact Or.inr (occursB_mono_false hsuf.isInfix h)
        obtain ⟨ihm, iht⟩ := ih _ hlen' (t.drop (p₂.length - 1)) rfl hin'
        constructor
        · rw [heq]
          cases hocc : occursB p (q₂ ++ replaceL p₂ q₂ (t.drop (p₂.length - 1))) with
          | false => rfl
          | true =>
            exfalso
            rcases occursB_append_cases hocc with h1 | h2 | ⟨k, hk0, hkp, htake, _⟩
            · rw [hN1] at h1; cases h1
            · rw [ihm] at h2; cases h2
            · exact hN4 k hkp hk0 htake
        · intro k hk hpre
          rw [heq] at hpre
          rcases prefix_append_split (prefOf_iff.1 hpre) with h1 | ⟨y, hy, _⟩
          · exfalso
            have hb := prefOf_iff.2 h1
            rw [hN2 k hk] at hb
            cases hb
          · exfalso
            have hq2p : occursB q₂ p = true := by
              apply occursB_iff.2
              have h1 : q₂ <+: p.drop k := ⟨y, hy.symm⟩
              exact h1.isInfix.trans (List.drop_suffix k p).isInfix
            rw [hN3] at hq2p; cases hq2p
      · have hmf : p₂.isPrefixOf (c :: t) = false := by
          cases hx : p₂.isPrefixOf (c :: t)
          · rfl
          · exact absurd hx hm
        have heq := replaceL_cons_neg p₂ q₂ c t hmf
        have hin' : p = p₂ ∨ occursB p t = false := by
          rcases hin with h | h
          · exact Or.inl h
          · simp only [occursB, Bool.or_eq_false_iff] at h
            exact Or.inr h.2
        have hlen' : t.length < n := by
          have : (c :: t).length = n := hlen
          simp only [List.length_cons] at this
          omega
        obtain ⟨ihm, iht⟩ := ih _ hlen' t rfl hin'
        have hfull : p.isPrefixOf (c :: replaceL p₂ q₂ t) = true →
            p.isPrefixOf (c :: t) = true := by
          intro hpp
          obtain ⟨d0, p'', hpeq⟩ : ∃ d0 p'', p = d0 :: p'' := by
            cases p with
            | nil => exact absurd rfl hp
            | cons d p'' => exact ⟨d, p'', rfl⟩
          subst hpeq
          simp only [List.isPrefixOf, Bool.and_eq_true, beq_iff_eq] at hpp ⊢
          obtain ⟨hdc, hp''⟩ := hpp
          refine ⟨hdc, ?_⟩
          by_cases hnil : p'' = []
          · subst hnil; simp [List.isPrefixOf]
          · have hk1 : 1 < (d0 :: p'').length := by
              cases p'' with
              | nil => exact absurd rfl hnil
              | cons e p₃ => simp
            exact iht 1 hk1 hp''
        constructor
        · rw [heq]
          simp only [occursB, Bool.or_eq_false_iff]
          refine ⟨?_, ihm⟩
          cases hpp : p.isPrefixOf (c :: replaceL p₂ q₂ t) with
          | false => rfl
          | true =>
            exfalso
            have hpt := hfull hpp
            rcases hin with h | h
            · rw [h] at hpt; rw [hpt] at hmf; cases hmf
            · simp only [occursB, Bool.or_eq_false_iff] at h
              rw [h.1] at hpt; cases hpt
        · intro k hk hpre
          rw [heq] at hpre
          cases hdk : p.drop k with
          | nil => exact absurd hdk (drop_ne_nil_of_lt hk)
          | cons d y' =>
            rw [hdk] at hpre
            simp only [List.isPrefixOf, Bool.and_eq_true, beq_iff_eq] at hpre ⊢
            obtain ⟨hdc, hy'⟩ := hpre
            refine ⟨hdc, ?_⟩
            by_cases hnil : y' = []
            · subst hnil; simp [List.isPrefixOf]
            · have hyeq : p.drop (k + 1) = y' := by
                have hd := List.drop_drop 1 k p
                rw [hdk] at hd
                simpa [Nat.add_comm] using hd.symm
              have hk1 : k + 1 < p.length := by
                by_contra hcon
                push_neg at hcon
                rw [List.drop_eq_nil_of_le hcon] at hyeq
                exact hnil hyeq.symm
              have h2 := iht (k + 1) hk1 (by rw [hyeq]; exact hy')
              rw [hyeq] at h2
              exact h2

theorem eq_append_drop_of_prefOf {p s : List Char} (h : p.isPrefixOf s = true) :
    s = p ++ s.drop p.length := by
  obtain ⟨t, rfl⟩ := prefOf_iff.1 h
  simp

theorem prefOf_false_of_head_ne {d c : Char} {p' t : List Char} (h : d ≠ c) :
    (d :: p').isPrefixOf (c :: t) = false := by
  simp [List.isPrefixOf, h]

theorem replaceL_self (p : List Char) (hp : p ≠ []) : ∀ s, replaceL p p s = s := by
  suffices H : ∀ n s, s.length = n → replaceL p p s = s from fun s => H s.length s rfl
  intro n
  induction n using Nat.strong_induction_on with
  | _ n ih =>
    intro s hlen
    match s with
    | [] => rfl
    | c :: t =>
      by_cases hm : p.isPrefixOf (c :: t) = true
      · rw [replaceL_cons_pos _ _ _ _ hm]
        have hdrop : t.drop (p.length - 1) = (c :: t).drop p.length := by
          cases p with
          | nil => exact absurd rfl hp
          | cons d p' => simp
        have hlt : (t.drop (p.length - 1)).length < n := by
          have h1 := len_drop_le t (p.length - 1)
          simp only [List.length_cons] at hlen
          omega
        rw [ih _ hlt _ rfl, hdrop, ← eq_append_drop_of_prefOf hm]
      · have hmf : p.isPrefixOf (c :: t) = false := by
          cases hx : p.isPrefixOf (c :: t)
          · rfl
          · exact absurd hx hm
        have hlt : t.length < n := by simp only [List.length_cons] at hlen; omega
        rw [replaceL_cons_neg _ _ _ _ hmf, ih _ hlt t rfl]

theorem prefOf_append_single {p l : List Char} {b : Char} (hb : b ∉ p) :
    p.isPrefixOf (l ++ [b]) = p.isPrefixOf l := by
  cases h2 : p.isPrefixOf l with
  | true => exact prefOf_iff.2 ((prefOf_iff.1 h2).trans ⟨[b], rfl⟩)
  | false =>
    cases h1 : p.isPrefixOf (l ++ [b]) with
    | false => rfl
    | true =>
      exfalso
      rcases prefix_append_split (prefOf_iff.1 h1) with hc | ⟨y, hy, hyb⟩
      · rw [prefOf_iff.2 hc] at h2; cases h2
      · cases y with
        | nil =>
          rw [List.append_nil] at hy
          rw [prefOf_iff.2 (hy ▸ List.prefix_refl l)] at h2
          cases h2
        | cons e y' =>
          have : b ∈ p := by
            have he : e = b ∧ y' = [] := by
              have hlen := hyb.length_le
              simp only [List.length_cons, List.length_singleton] at hlen
              obtain ⟨w, hw⟩ := hyb
              cases y' with
              | nil =>
                cases w with
                | nil => simpa using hw
                | cons f w' => simpa using congrArg List.length hw
              | cons f y'' => simp at hlen
            rw [hy, he.1, he.2]
            simp
          exact hb this

theorem replaceL_append_single (p q : List Char) (hp : p ≠ []) (b : Char) (hb : b ∉ p) :
    ∀ x, replaceL p q (x ++ [b]) = replaceL p q x ++ [b] := by
  suffices H : ∀ n x, x.length = n → replaceL p q (x ++ [b]) = replaceL p q x ++ [b] from
    fun x => H x.length x rfl
  intro n
  induction n using Nat.strong_induction_on with
  | _ n ih =>
    intro x hlen
    match x with
    | [] =>
      have hcb : p.isPrefixOf [b] = false := by
        cases p with
        | nil => exact absurd rfl hp
        | cons c p' =>
          have hne : c ≠ b := fun h => hb (h ▸ List.mem_cons_self c p')
          exact prefOf_false_of_head_ne hne
      rw [List.nil_append, replaceL_cons_neg _ _ _ _ hcb, replaceL_nil]
      rfl
    | c :: t =>
      have hiff : p.isPrefixOf ((c :: t) ++ [b]) = p.isPrefixOf (c :: t) :=
        prefOf_append_single hb
      by_cases hm : p.isPrefixOf (c :: t) = true
      · have hm' : p.isPrefixOf (c :: (t ++ [b])) = true := by
          rw [show c :: (t ++ [b]) = (c :: t) ++ [b] from rfl, hiff]; exact hm
        rw [show (c :: t) ++ [b] = c :: (t ++ [b]) from rfl,
          replaceL_cons_pos _ _ _ _ hm', replaceL_cons_pos _ _ _ _ hm]
        have hle : p.length - 1 ≤ t.length := by
          have hl := (prefOf_iff.1 hm).length_le
          simp only [List.length_cons] at hl
          omega
        rw [List.drop_append_of_le_length hle]
        have hlt : (t.drop (p.length - 1)).length < n := by
          have h1 := len_drop_le t (p.length - 1)
          simp only [List.length_cons] at hlen
          omega
        rw [ih _ hlt _ rfl]
        simp
      · have hmf : p.isPrefixOf (c :: t) = false := by
          cases hx : p.isPrefixOf (c :: t)
          · rfl
          · exact absurd hx hm
        have hmf' : p.isPrefixOf (c :: (t ++ [b])) = false := by
          rw [show c :: (t ++ [b]) = (c :: t) ++ [b] from rfl, hiff]; exact hmf
        rw [show (c :: t) ++ [b] = c :: (t ++ [b]) from rfl,
          replaceL_cons_neg _ _ _ _ hmf', replaceL_cons_neg _ _ _ _ hmf]
        have hlt : t.length < n := by simp only [List.length_cons] at hlen; omega
        rw [ih _ hlt t rfl]
        simp

theorem not_mem_replaceL {a : Char} (p q : List Char) (hq : a ∉ q) :
    ∀ s, a ∉ s → a ∉ replaceL p q s := by
  suffices H : ∀ n s, s.length = n → a ∉ s → a ∉ replaceL p q s from
    fun s => H s.length s rfl
  intro n
  induction n using Nat.strong_induction_on with
  | _ n ih =>
    intro s hlen hs
    match s with
    | [] => simpa [replaceL_nil] using hs
    | c :: t =>
      by_cases hm : p.isPrefixOf (c :: t) = true
      · rw [replaceL_cons_pos _ _ _ _ hm]
        have hlt : (t.drop (p.length - 1)).length < n := by
          have h1 := len_drop_le t (p.length - 1)
          simp only [List.length_cons] at hlen
          omega
        have hst : a ∉ t.drop (p.length - 1) := fun hmem =>
          hs (List.mem_cons_of_mem c (List.mem_of_mem_drop hmem))
        intro hmem
        rcases List.mem_append.1 hmem with h | h
        · exact hq h
        · exact ih _ hlt _ rfl hst h
      · have hmf : p.isPrefixOf (c :: t) = false := by
          cases hx : p.isPrefixOf (c :: t)
          · rfl
          · exact absurd hx hm
        rw [replaceL_cons_neg _ _ _ _ hmf]
        have hlt : t.length < n := by simp only [List.length_cons] at hlen; omega
        intro hmem
        rcases List.mem_cons.1 hmem with h | h
        · exact hs (h ▸ List.mem_cons_self c t)
        · exact ih _ hlt t rfl (fun hx => hs (List.mem_cons_of_mem c hx)) h

theorem replaceL_length (p q : List Char) (hp : p ≠ []) (hlen : p.length = q.length) :
    ∀ s, (replaceL p q s).length = s.length := by
  suffices H : ∀ n s, s.length = n → (replaceL p q s).length = s.length from
    fun s => H s.length s rfl
  intro n
  induction n using Nat.strong_induction_on with
  | _ n ih =>
    intro s hle
    match s with
    | [] => rfl
    | c :: t =>
      by_cases hm : p.isPrefixOf (c :: t) = true
      · rw [replaceL_cons_pos _ _ _ _ hm]
        have hlt : (t.drop (p.length - 1)).length < n := by
          have h1 := len_drop_le t (p.length - 1)
          simp only [List.length_cons] at hle
          omega
        have hplen : p.length ≤ t.length + 1 := by
          have hl := (prefOf_iff.1 hm).length_le
          simpa using hl
        have hp1 : 1 ≤ p.length := by
          cases p with
          | nil => exact absurd rfl hp
          | cons d p' => simp
        rw [List.length_append, ih _ hlt _ rfl, List.length_drop]
        simp only [List.length_cons]
        omega
      · have hmf : p.isPrefixOf (c :: t) = false := by
          cases hx : p.isPrefixOf (c :: t)
          · rfl
          · exact absurd hx hm
        rw [replaceL_cons_neg _ _ _ _ hmf]
        have hlt : t.length < n := by simp only [List.length_cons] at hle; omega
        simp only [List.length_cons, ih _ hlt t rfl]

theorem noocc_of_missing_char {p s : List Char} {c : Char} (hc : c ∈ p) (hs : c ∉ s) :
    occursB p s = false := by
  cases h : occursB p s with
  | false => rfl
  | true => exact absurd (occursB_subset h c hc) hs

theorem noocc_append_replicate (p x : List Char) (k : Nat) (b : Char)
    (hocc : occursB p x = false) (hb : b ∉ p) (hp : p ≠ []) :
    occursB p (x ++ List.replicate k b) = false := by
  cases h : occursB p (x ++ List.replicate k b) with
  | false => rfl
  | true =>
    exfalso
    rcases occursB_append_cases h with h1 | h2 | ⟨j, hj0, hjp, _, hdrop⟩
    · rw [hocc] at h1; cases h1
    · have hmem : ∀ e ∈ p, e ∈ List.replicate k b := occursB_subset h2
      cases p with
      | nil => exact hp rfl
      | cons d p' =>
        exact hb ((List.eq_of_mem_replicate
          (hmem d (List.mem_cons_self d p'))) ▸ List.mem_cons_self d p')
    · have hne : p.drop j ≠ [] := drop_ne_nil_of_lt hjp
      cases hdj : p.drop j with
      | nil => exact hne hdj
      | cons e y' =>
        have he : e ∈ List.replicate k b := by
          rw [hdj] at hdrop
          exact (prefOf_iff.1 hdrop).sublist.subset (List.mem_cons_self e y')
        have hep : e ∈ p := List.mem_of_mem_drop (hdj ▸ List.mem_cons_self e y')
        exact hb (List.eq_of_mem_replicate he ▸ hep)

/-! ### Lemmas about `findPos` and `rfindPos` -/

theorem findPos_cons_ne {c d : Char} (t : List Char) (hdc : d ≠ c) :
    findPos c (d :: t) = (findPos c t).map (· + 1) := by
  simp [findPos, hdc]

theorem findPos_eq_none {c : Char} : ∀ {s : List Char}, findPos c s = none ↔ c ∉ s := by
  intro s
  induction s with
  | nil => simp [findPos]
  | cons d t ih =>
    by_cases hdc : d = c
    · subst hdc; simp [findPos]
    · rw [findPos_cons_ne t hdc]
      constructor
      · intro h hm
        have ht : findPos c t = none := by
          cases hf : findPos c t
          · rfl
          · rw [hf] at h; cases h
        rcases List.mem_cons.1 hm with h1 | h1
        · exact hdc h1.symm
        · exact (ih.1 ht) h1
      · intro h
        rw [ih.2 fun hx => h (List.mem_cons_of_mem d hx)]
        rfl

theorem rfindPos_eq_none {c : Char} : ∀ {s : List Char}, rfindPos c s = none ↔ c ∉ s := by
  intro s
  induction s with
  | nil => simp [rfindPos]
  | cons d t ih =>
    show (match rfindPos c t with
      | some i => some (i + 1)
      | none => if d = c then some 0 else none) = none ↔ c ∉ d :: t
    cases hr : rfindPos c t with
    | some i =>
      simp only [List.mem_cons]
      constructor
      · intro h; cases h
      · intro h
        have hct : c ∈ t := by
          by_contra hnot
          rw [ih.2 hnot] at hr; cases hr
        exact absurd (Or.inr hct) h
    | none =>
      have hct : c ∉ t := ih.1 hr
      by_cases hdc : d = c
      · subst hdc
        simp
      · simp only [hdc, if_false, List.mem_cons]
        constructor
        · intro _ hm
          rcases hm with h1 | h1
          · exact hdc h1.symm
          · exact hct h1
        · intro _; trivial

theorem findPos_head (c : Char) (t : List Char) : findPos c (c :: t) = some 0 := by
  simp [findPos]

theorem findPos_spec {c : Char} : ∀ {s : List Char} {i : Nat}, findPos c s = some i →
    ∃ a b, s = a ++ c :: b ∧ a.length = i := by
  intro s
  induction s with
  | nil => intro i h; cases h
  | cons d t ih =>
    intro i h
    by_cases hdc : d = c
    · subst hdc
      rw [findPos_head] at h
      obtain rfl : i = 0 := by simpa using h.symm
      exact ⟨[], t, rfl, rfl⟩
    · simp only [findPos, hdc, if_false] at h
      cases hf : findPos c t with
      | none => rw [hf] at h; cases h
      | some i' =>
        rw [hf] at h
        obtain rfl : i = i' + 1 := by simpa using h.symm
        obtain ⟨a, b, rfl, hlen⟩ := ih hf
        exact ⟨d :: a, b, rfl, by simp [hlen]⟩

theorem rfindPos_spec {c : Char} : ∀ {s : List Char} {j : Nat}, rfindPos c s = some j →
    ∃ a b, s = a ++ c :: b ∧ a.length = j ∧ c ∉ b := by
  intro s
  induction s with
  | nil => intro j h; cases h
  | cons d t ih =>
    intro j h
    simp only [rfindPos] at h
    cases hr : rfindPos c t with
    | some i =>
      rw [hr] at h
      obtain rfl : j = i + 1 := by simpa using h.symm
      obtain ⟨a, b, rfl, hlen, hnb⟩ := ih hr
      exact ⟨d :: a, b, rfl, by simp [hlen], hnb⟩
    | none =>
      rw [hr] at h
      by_cases hdc : d = c
      · subst hdc
        obtain rfl : j = 0 := by simpa using h.symm
        exact ⟨[], t, rfl, rfl, rfindPos_eq_none.1 hr⟩
      · rw [if_neg hdc] at h; cases h

theorem findPos_append_left {c : Char} {x : List Char} {i : Nat} (y : List Char)
    (h : findPos c x = some i) : findPos c (x ++ y) = some i := by
  induction x generalizing i with
  | nil => cases h
  | cons d t ih =>
    by_cases hdc : d = c
    · subst hdc
      rw [findPos_head] at h
      rw [List.cons_append, findPos_head]
      exact h
    · rw [findPos_cons_ne t hdc] at h
      cases hf : findPos c t with
      | none => rw [hf] at h; cases h
      | some i' =>
        rw [hf] at h
        rw [List.cons_append, findPos_cons_ne (t ++ y) hdc, ih hf]
        exact h

theorem findPos_append_notmem {c : Char} {y : List Char} (x : List Char) (hy : c ∉ y) :
    findPos c (x ++ y) = findPos c x := by
  cases h : findPos c x with
  | some i => exact findPos_append_left y h
  | none =>
    rw [findPos_eq_none]
    intro hm
    rcases List.mem_append.1 hm with h1 | h1
    · exact (findPos_eq_none.1 h) h1
    · exact hy h1

theorem rfindPos_append (c : Char) (x y : List Char) :
    rfindPos c (x ++ y) =
      match rfindPos c y with
      | some i => some (i + x.length)
      | none => rfindPos c x := by
  induction x with
  | nil =>
    cases hr : rfindPos c y with
    | some i => simp [hr]
    | none => simp [hr, rfindPos]
  | cons d t ih =>
    rw [List.cons_append]
    show (match rfindPos c (t ++ y) with
      | some i => some (i + 1)
      | none => if d = c then some 0 else none) = _
    rw [ih]
    cases hr : rfindPos c y with
    | some i =>
      simp only [Option.some.injEq, List.length_cons]
      omega
    | none => rfl

theorem rfindPos_last (c : Char) (x : List Char) :
    rfindPos c (x ++ [c]) = some x.length := by
  rw [rfindPos_append]
  simp [rfindPos]

theorem findPos_append_skip (a : Char) (x y : List Char) (hx : a ∉ x) :
    findPos a (x ++ y) = (findPos a y).map (· + x.length) := by
  induction x with
  | nil =>
    simp only [List.nil_append, List.length_nil]
    cases findPos a y <;> simp
  | cons d t ih =>
    have hda : d ≠ a := fun h => hx (h ▸ List.mem_cons_self d t)
    rw [List.cons_append, findPos_cons_ne _ hda,
      ih fun h => hx (List.mem_cons_of_mem d h)]
    cases findPos a y <;> simp <;> omega

theorem findPos_replaceL (a : Char) (p q : List Char) (hp : p ≠ [])
    (hlen : p.length = q.length) (hap : a ∉ p) (haq : a ∉ q) :
    ∀ s, findPos a (replaceL p q s) = findPos a s := by
  suffices H : ∀ n s, s.length = n → findPos a (replaceL p q s) = findPos a s from
    fun s => H s.length s rfl
  intro n
  induction n using Nat.strong_induction_on with
  | _ n ih =>
    intro s hle
    match s with
    | [] => rfl
    | c :: t =>
      by_cases hm : p.isPrefixOf (c :: t) = true
      · rw [replaceL_cons_pos _ _ _ _ hm]
        have hdrop : t.drop (p.length - 1) = (c :: t).drop p.length := by
          cases p with
          | nil => exact absurd rfl hp
          | cons d p' => simp
        have hlt : (t.drop (p.length - 1)).length < n := by
          have h1 := len_drop_le t (p.length - 1)
          simp only [List.length_cons] at hle
          omega
        rw [findPos_append_skip a q _ haq, ih _ hlt _ rfl]
        conv_rhs => rw [eq_append_drop_of_prefOf hm]
        rw [findPos_append_skip a p _ hap, ← hdrop, hlen]
      · have hmf : p.isPrefixOf (c :: t) = false := by
          cases hx : p.isPrefixOf (c :: t)
          · rfl
          · exact absurd hx hm
        rw [replaceL_cons_neg _ _ _ _ hmf]
        have hlt : t.length < n := by simp only [List.length_cons] at hle; omega
        by_cases hca : c = a
        · subst hca; rw [findPos_head, findPos_head]
        · rw [findPos_cons_ne _ hca, findPos_cons_ne _ hca, ih _ hlt t rfl]

theorem rfindPos_replaceL (a : Char) (p q : List Char) (hp : p ≠ [])
    (hlen : p.length = q.length) (hap : a ∉ p) (haq : a ∉ q) :
    ∀ s, rfindPos a (replaceL p q s) = rfindPos a s := by
  suffices H : ∀ n s, s.length = n → rfindPos a (replaceL p q s) = rfindPos a s from
    fun s => H s.length s rfl
  intro n
  induction n using Nat.strong_induction_on with
  | _ n ih =>
    intro s hle
    match s with
    | [] => rfl
    | c :: t =>
      by_cases hm : p.isPrefixOf (c :: t) = true
      · rw [replaceL_cons_pos _ _ _ _ hm]
        have hdrop : t.drop (p.length - 1) = (c :: t).drop p.length := by
          cases p with
          | nil => exact absurd rfl hp
          | cons d p' => simp
        have hlt : (t.drop (p.length - 1)).length < n := by
          have h1 := len_drop_le t (p.length - 1)
          simp only [List.length_cons] at hle
          omega
        rw [rfindPos_append a q _, ih _ hlt _ rfl]
        conv_rhs => rw [eq_append_drop_of_prefOf hm]
        rw [rfindPos_append a p _, ← hdrop]
        rw [rfindPos_eq_none.2 hap, rfindPos_eq_none.2 haq]
        cases rfindPos a (t.drop (p.length - 1)) <;> simp [hlen]
      · have hmf : p.isPrefixOf (c :: t) = false := by
          cases hx : p.isPrefixOf (c :: t)
          · rfl
          · exact absurd hx hm
        rw [replaceL_cons_neg _ _ _ _ hmf]
        have hlt : t.length < n := by simp only [List.length_cons] at hle; omega
        show (match rfindPos a (replaceL p q t) with
          | some i => some (i + 1)
          | none => if c = a then some 0 else none) = _
        rw [ih _ hlt t rfl]
        rfl

theorem sliceToBrackets_some_shape {raw u : List Char} (h : sliceToBrackets raw = some u) :
    ∃ mid, u = '[' :: mid ++ [']'] := by
  unfold sliceToBrackets at h
  cases hf : findPos '[' raw with
  | none => rw [hf] at h; cases h
  | some i =>
    cases hr : rfindPos ']' raw with
    | none => rw [hf, hr] at h; cases h
    | some j =>
      rw [hf, hr] at h
      have h' : (if i < j then some ((raw.drop i).take (j - i + 1)) else none) = some u := h
      by_cases hij : i < j
      · rw [if_pos hij] at h'
        obtain rfl : (raw.drop i).take (j - i + 1) = u := by simpa using h'
        obtain ⟨a, b, heq, hlen⟩ := findPos_spec hf
        obtain ⟨a', b', heq', hlen', hnb'⟩ := rfindPos_spec hr
        refine ⟨(a'.drop (i + 1)), ?_⟩
        have hdrop : raw.drop i = '[' :: b := by
          rw [heq, ← hlen, List.drop_left]
        have hb : b = raw.drop (i + 1) := by
          have h2 := List.drop_drop 1 i raw
          rw [hdrop] at h2
          simpa using h2
        have hdrop2 : raw.drop (i + 1) = a'.drop (i + 1) ++ ']' :: b' := by
          rw [heq', List.drop_append_of_le_length (by omega)]
        have hlen2 : (a'.drop (i + 1)).length = j - i - 1 := by
          rw [List.length_drop]
          omega
        have htake : (a'.drop (i + 1) ++ ']' :: b').take (j - i) =
            a'.drop (i + 1) ++ [']'] := by
          have hji : j - i = (a'.drop (i + 1)).length + 1 := by omega
          rw [hji, List.take_append]
          simp
        rw [hdrop, List.take_succ_cons, hb, hdrop2, htake]
        simp
      · rw [if_neg hij] at h'; cases h'

theorem mem_of_mem_slice {raw u : List Char} (h : sliceToBrackets raw = some u)
    {a : Char} (ha : a ∈ u) : a ∈ raw := by
  unfold sliceToBrackets at h
  cases hf : findPos '[' raw with
  | none => rw [hf] at h; cases h
  | some i =>
    cases hr : rfindPos ']' raw with
    | none => rw [hf, hr] at h; cases h
    | some j =>
      rw [hf, hr] at h
      have h' : (if i < j then some ((raw.drop i).take (j - i + 1)) else none) = some u := h
      by_cases hij : i < j
      · rw [if_pos hij] at h'
        obtain rfl : (raw.drop i).take (j - i + 1) = u := by simpa using h'
        exact List.mem_of_mem_drop (List.mem_of_mem_take ha)
      · rw [if_neg hij] at h'; cases h'

theorem not_mem_replaceL_single (a : Char) (q : List Char) (haq : a ∉ q) :
    ∀ s, a ∉ replaceL [a] q s := by
  suffices H : ∀ n s, s.length = n → a ∉ replaceL [a] q s from fun s => H s.length s rfl
  intro n
  induction n using Nat.strong_induction_on with
  | _ n ih =>
    intro s hle
    match s with
    | [] => simp [replaceL_nil]
    | c :: t =>
      have hlt : t.length < n := by simp only [List.length_cons] at hle; omega
      by_cases hca : c = a
      · subst hca
        have hpre : ([c] : List Char).isPrefixOf (c :: t) = true :=
          prefOf_iff.2 (List.cons_prefix_cons.2 ⟨rfl, List.nil_prefix⟩)
        rw [replaceL_cons_pos _ _ _ _ hpre]
        intro hm
        rcases List.mem_append.1 hm with h1 | h1
        · exact haq h1
        · exact ih _ hlt _ rfl (by simpa using h1)
      · have hpre : ([a] : List Char).isPrefixOf (c :: t) = false :=
          prefOf_false_of_head_ne fun h => hca h.symm
        rw [replaceL_cons_neg _ _ _ _ hpre]
        intro hm
        rcases List.mem_cons.1 hm with h1 | h1
        · exact hca h1.symm
        · exact ih _ hlt t rfl h1

theorem prefix_singleton_mem {l : List Char} {x : Char} (h : l <+: [x]) (hne : l ≠ []) :
    x ∈ l := by
  cases l with
  | nil => exact absurd rfl hne
  | cons c l' =>
    obtain ⟨rfl, -⟩ := List.cons_prefix_cons.1 h
    exact List.mem_cons_self _ _

theorem suffix_singleton_mem {l : List Char} {x : Char} (h : l <:+ [x]) (hne : l ≠ []) :
    x ∈ l := by
  obtain ⟨w, hw⟩ := h
  cases l with
  | nil => exact absurd rfl hne
  | cons c l' =>
    cases w with
    | nil =>
      obtain ⟨rfl, -⟩ : c = x ∧ l' = [] := by simpa using hw
      exact List.mem_cons_self _ _
    | cons d w' =>
      have := congrArg List.length hw
      simp at this

theorem noocc_bracket_wrap {p M : List Char} (hp : p ≠ []) (hbo : '[' ∉ p) (hbc : ']' ∉ p)
    (h : occursB p M = false) : occursB p ('[' :: M ++ [']']) = false := by
  cases hx : occursB p ('[' :: M ++ [']']) with
  | false => rfl
  | true =>
    exfalso
    have hx2 : occursB p (['['] ++ (M ++ [']'])) = true := by simpa using hx
    rcases occursB_append_cases hx2 with h1 | h2 | ⟨k, hk0, hkp, htake, _⟩
    · have hsub := (occursB_iff.1 h1).sublist.subset
      cases p with
      | nil => exact hp rfl
      | cons d p' =>
        have hd := hsub (List.mem_cons_self d p')
        simp only [List.mem_singleton] at hd
        exact hbo (hd ▸ List.mem_cons_self d p')
    · rcases occursB_append_cases h2 with h3 | h4 | ⟨k, hk0, hkp, _, hdrop⟩
      · rw [h] at h3; cases h3
      · have hinf := occursB_iff.1 h4
        have hsub := hinf.sublist.subset
        cases p with
        | nil => exact hp rfl
        | cons d p' =>
          have hd := hsub (List.mem_cons_self d p')
          simp only [List.mem_singleton] at hd
          exact hbc (hd ▸ List.mem_cons_self d p')
      · have hne : p.drop k ≠ [] := drop_ne_nil_of_lt hkp
        have hmem : ']' ∈ p.drop k :=
          prefix_singleton_mem (prefOf_iff.1 hdrop) hne
        exact hbc (List.mem_of_mem_drop hmem)
    · have hne : p.take k ≠ [] := by
        intro hnil
        have h0 := congrArg List.length hnil
        rw [List.length_take] at h0
        simp only [List.length_nil] at h0
        omega
      have hmem : '[' ∈ p.take k := suffix_singleton_mem htake hne
      exact hbo (List.mem_of_mem_take hmem)

theorem braceBalance_idem (s : List Char) : braceBalance (braceBalance s) = braceBalance s := by
  by_cases h : s.count obr > s.count cbr
  · have e : braceBalance s = s ++ List.replicate (s.count obr - s.count cbr) cbr := by
      simp [braceBalance, h]
    rw [e]
    have hcnt : ¬((s ++ List.replicate (s.count obr - s.count cbr) cbr).count obr >
        (s ++ List.replicate (s.count obr - s.count cbr) cbr).count cbr) := by
      rw [List.count_append, List.count_append, List.count_replicate, List.count_replicate]
      have e1 : (obr == cbr) = false := by decide
      have e2 : (cbr == obr) = false := by decide
      simp only [e1, e2, beq_self_eq_true, if_true, Bool.false_eq_true, if_false]
      omega
    unfold braceBalance
    rw [if_neg hcnt]
  · have e : braceBalance s = s := by simp [braceBalance, h]
    rw [e, e]

theorem trimL_shape (c b : Char) (m : List Char) (hc : isPySpace c = false)
    (hb : isPySpace b = false) : trimL (c :: m ++ [b]) = c :: m ++ [b] := by
  unfold trimL
  rw [show c :: m ++ [b] = c :: (m ++ [b]) from rfl, List.dropWhile_cons]
  simp only [hc, Bool.false_eq_true, if_false]
  rw [show (c :: (m ++ [b])) = (c :: m) ++ [b] from by simp, List.reverse_append]
  simp only [List.reverse_singleton, List.singleton_append]
  rw [List.dropWhile_cons]
  simp only [hb, Bool.false_eq_true, if_false]
  simp

theorem replaceL_bracket_shape (p q : List Char) (hp : p ≠ [])
    (hbo : '[' ∉ p) (hbc : ']' ∉ p) (m : List Char) :
    replaceL p q ('[' :: m ++ [']']) = '[' :: replaceL p q m ++ [']'] := by
  have hhead : p.isPrefixOf ('[' :: (m ++ [']'])) = false := by
    cases p with
    | nil => exact absurd rfl hp
    | cons d p' =>
      exact prefOf_false_of_head_ne fun h => hbo (h ▸ List.mem_cons_self d p')
  rw [show '[' :: m ++ [']'] = '[' :: (m ++ [']']) from rfl, replaceL_cons_neg _ _ _ _ hhead,
    replaceL_append_single p q hp ']' hbc m]
  simp

theorem normalizeLiterals_bracket_shape (m : List Char) :
    normalizeLiterals ('[' :: m ++ [']']) = '[' :: normalizeLiterals m ++ [']'] := by
  unfold normalizeLiterals
  rw [replaceL_bracket_shape _ _ (by decide) (by decide) (by decide),
    replaceL_bracket_shape _ _ (by decide) (by decide) (by decide),
    replaceL_bracket_shape _ _ (by decide) (by decide) (by decide),
    replaceL_bracket_shape _ _ (by decide) (by decide) (by decide),
    replaceL_bracket_shape _ _ (by decide) (by decide) (by decide),
    replaceL_bracket_shape _ _ (by decide) (by decide) (by decide)]

theorem not_mem_normalizeLiterals {a : Char} (h1 : a ∉ strL ": true") (h2 : a ∉ strL ", true")
    (h3 : a ∉ strL ": false") (h4 : a ∉ strL ", false") (h5 : a ∉ strL ": null")
    (h6 : a ∉ strL ", null") {m : List Char} (hm : a ∉ m) : a ∉ normalizeLiterals m := by
  unfold normalizeLiterals
  exact not_mem_replaceL _ _ h6 _ (not_mem_replaceL _ _ h5 _ (not_mem_replaceL _ _ h4 _
    (not_mem_replaceL _ _ h3 _ (not_mem_replaceL _ _ h2 _ (not_mem_replaceL _ _ h1 _ hm)))))

theorem sliceToBrackets_shape (M : List Char) (k : Nat) :
    sliceToBrackets (('[' :: M ++ [']']) ++ List.replicate k cbr) =
      some ('[' :: M ++ [']']) := by
  have hf : findPos '[' (('[' :: M ++ [']']) ++ List.replicate k cbr) = some 0 := by
    rw [show ('[' :: M ++ [']']) ++ List.replicate k cbr =
      '[' :: (M ++ [']'] ++ List.replicate k cbr) from by simp, findPos_head]
  have hr1 : rfindPos ']' (List.replicate k cbr) = none :=
    rfindPos_eq_none.2 fun hm => absurd (List.eq_of_mem_replicate hm) (by decide)
  have hr : rfindPos ']' (('[' :: M ++ [']']) ++ List.replicate k cbr) =
      some (M.length + 1) := by
    rw [rfindPos_append, hr1]
    rw [show '[' :: M ++ [']'] = ('[' :: M) ++ [']'] from by simp, rfindPos_last]
    simp
  have hmain : sliceToBrackets (('[' :: M ++ [']']) ++ List.replicate k cbr) =
      if 0 < M.length + 1 then
        some (((('[' :: M ++ [']']) ++ List.replicate k cbr).drop 0).take (M.length + 1 - 0 + 1))
      else none := by
    unfold sliceToBrackets
    rw [hf, hr]
  rw [hmain, if_pos (by omega), List.drop_zero]
  congr 1
  rw [show M.length + 1 - 0 + 1 = ('[' :: M ++ [']']).length from by simp]
  exact List.take_left _ _

theorem sliceToBrackets_none_of_finds {s s' : List Char}
    (hf : findPos '[' s' = findPos '[' s) (hr : rfindPos ']' s' = rfindPos ']' s)
    (h : sliceToBrackets s = none) : sliceToBrackets s' = none := by
  unfold sliceToBrackets at h ⊢
  rw [hf, hr]
  cases hfs : findPos '[' s with
  | none => rfl
  | some i =>
    cases hrs : rfindPos ']' s with
    | none => rfl
    | some j =>
      rw [hfs, hrs] at h
      have h' : (if i < j then some ((s.drop i).take (j - i + 1)) else none) = none := h
      show (if i < j then some ((s'.drop i).take (j - i + 1)) else none) = none
      split_ifs with hij
      · rw [if_pos hij] at h'; cases h'
      · rfl


theorem braceBalance_pos {s : List Char} (h : s.count obr > s.count cbr) :
    braceBalance s = s ++ List.replicate (s.count obr - s.count cbr) cbr := by
  simp [braceBalance, h]

theorem braceBalance_nonpos {s : List Char} (h : ¬s.count obr > s.count cbr) :
    braceBalance s = s := by
  simp [braceBalance, h]

/-- C6 counterexample: `["`\u0060**\u0060\u0060"]` is valid JSON, yet the repair
pipeline is not idempotent on it — removing `**` in the first pass glues
the surrounding backticks into a new ``` ``` ``` fence that only the second
pass strips. -/
theorem repair_idempotent_cex :
    (parseJson (strL "[\"`**``\"]")).isSome = true ∧
    repairPlanText (repairPlanText (strL "[\"`**``\"]")) ≠
      repairPlanText (strL "[\"`**``\"]") := by
  constructor
  · decide
  · decide

/-- C6 amended: for every input that contains no backtick and no asterisk
character (in particular every such already-valid JSON text), applying the
JSON-repair pipeline twice yields the same result as applying it once. -/
theorem repair_idempotent (raw : List Char) (hbt : btk ∉ raw) (has : ast ∉ raw) :
    repairPlanText (repairPlanText raw) = repairPlanText raw := by
  cases hs : sliceToBrackets raw with
  | some u =>
    obtain ⟨mid, rfl⟩ := sliceToBrackets_some_shape hs
    have hbtu : btk ∉ '[' :: mid ++ [']'] := fun hm => hbt (mem_of_mem_slice hs hm)
    have hasu : ast ∉ '[' :: mid ++ [']'] := fun hm => has (mem_of_mem_slice hs hm)
    have hbtm : btk ∉ mid := fun hm =>
      hbtu (List.mem_cons_of_mem _ (List.mem_append_left _ hm))
    have hasm : ast ∉ mid := fun hm =>
      hasu (List.mem_cons_of_mem _ (List.mem_append_left _ hm))
    have e1 : replaceL (strL "```json") [] ('[' :: mid ++ [']']) = '[' :: mid ++ [']'] :=
      replaceL_noocc _ _ _ (noocc_of_missing_char (show btk ∈ strL "```json" by decide) hbtu)
    have e2 : replaceL (strL "```") [] ('[' :: mid ++ [']']) = '[' :: mid ++ [']'] :=
      replaceL_noocc _ _ _ (noocc_of_missing_char (show btk ∈ strL "```" by decide) hbtu)
    have e3 : replaceL (strL "**") [] ('[' :: mid ++ [']']) = '[' :: mid ++ [']'] :=
      replaceL_noocc _ _ _ (noocc_of_missing_char (show ast ∈ strL "**" by decide) hasu)
    have ob1_1 : occursB (strL ": True") (replaceL (strL ": True") (strL ": true") (mid)) = false :=
      (noRecreate _ _ _ (by decide) (by decide) (by decide) (by decide)
        (by decide) (by decide) _ (Or.inl rfl)).1
    have ob1_2 : occursB (strL ": True") (replaceL (strL ", True") (strL ", true") (replaceL (strL ": True") (strL ": true") (mid))) = false :=
      (noRecreate _ _ _ (by decide) (by decide) (by decide) (by decide)
        (by decide) (by decide) _ (Or.inr ob1_1)).1
    have ob1_3 : occursB (strL ": True") (replaceL (strL ": False") (strL ": false") (replaceL (strL ", True") (strL ", true") (replaceL (strL ": True") (strL ": true") (mid)))) = false :=
      (noRecreate _ _ _ (by decide) (by decide) (by decide) (by decide)
        (by decide) (by decide) _ (Or.inr ob1_2)).1
    have ob1_4 : occursB (strL ": True") (replaceL (strL ", False") (strL ", false") (replaceL (strL ": False") (strL ": false") (replaceL (strL ", True") (strL ", true") (replaceL (strL ": True") (strL ": true") (mid))))) = false :=
      (noRecreate _ _ _ (by decide) (by decide) (by decide) (by decide)
        (by decide) (by decide) _ (Or.inr ob1_3)).1
    have ob1_5 : occursB (strL ": True") (replaceL (strL ": None") (strL ": null") (replaceL (strL ", False") (strL ", false") (replaceL (strL ": False") (strL ": false") (replaceL (strL ", True") (strL ", true") (replaceL (strL ": True") (strL ": true") (mid)))))) = false :=
      (noRecreate _ _ _ (by decide) (by decide) (by decide) (by decide)
        (by decide) (by decide) _ (Or.inr ob1_4)).1
    have ob1_6 : occursB (strL ": True") (replaceL (strL ", None") (strL ", null") (replaceL (strL ": None") (strL ": null") (replaceL (strL ", False") (strL ", false") (replaceL (strL ": False") (strL ": false") (replaceL (strL ", True") (strL ", true") (replaceL (strL ": True") (strL ": true") (mid))))))) = false :=
      (noRecreate _ _ _ (by decide) (by decide) (by decide) (by decide)
        (by decide) (by decide) _ (Or.inr ob1_5)).1
    have ob1_q : occursB (strL ": True") (replaceL [sq] [dq] (replaceL (strL ", None") (strL ", null") (replaceL (strL ": None") (strL ": null") (replaceL (strL ", False") (strL ", false") (replaceL (strL ": False") (strL ": false") (replaceL (strL ", True") (strL ", true") (replaceL (strL ": True") (strL ": true") (mid)))))))) = false :=
      (noRecreate _ _ _ (by decide) (by decide) (by decide) (by decide)
        (by decide) (by decide) _ (Or.inr ob1_6)).1
    have ob2_2 : occursB (strL ", True") (replaceL (strL ", True") (strL ", true") (replaceL (strL ": True") (strL ": true") (mid))) = false :=
      (noRecreate _ _ _ (by decide) (by decide) (by decide) (by decide)
        (by decide) (by decide) _ (Or.inl rfl)).1
    have ob2_3 : occursB (strL ", True") (replaceL (strL ": False") (strL ": false") (replaceL (strL ", True") (strL ", true") (replaceL (strL ": True") (strL ": true") (mid)))) = false :=
      (noRecreate _ _ _ (by decide) (by decide) (by decide) (by decide)
        (by decide) (by decide) _ (Or.inr ob2_2)).1
    have ob2_4 : occursB (strL ", True") (replaceL (strL ", False") (strL ", false") (replaceL (strL ": False") (strL ": false") (replaceL (strL ", True") (strL ", true") (replaceL (strL ": True") (strL ": true") (mid))))) = false :=
      (noRecreate _ _ _ (by decide) (by decide) (by decide) (by decide)
        (by decide) (by decide) _ (Or.inr ob2_3)).1
    have ob2_5 : occursB (strL ", True") (replaceL (strL ": None") (strL ": null") (replaceL (strL ", False") (strL ", false") (replaceL (strL ": False") (strL ": false") (replaceL (strL ", True") (strL ", true") (replaceL (strL ": True") (strL ": true") (mid)))))) = false :=
      (noRecreate _ _ _ (by decide) (by decide) (by decide) (by decide)
        (by decide) (by decide) _ (Or.inr ob2_4)).1
    have ob2_6 : occursB (strL ", True") (replaceL (strL ", None") (strL ", null") (replaceL (strL ": None") (strL ": null") (replaceL (strL ", False") (strL ", false") (replaceL (strL ": False") (strL ": false") (replaceL (strL ", True") (strL ", true") (replaceL (strL ": True") (strL ": true") (mid))))))) = false :=
      (noRecreate _ _ _ (by decide) (by decide) (by decide) (by decide)
        (by decide) (by decide) _ (Or.inr ob2_5)).1
    have ob2_q : occursB (strL ", True") (replaceL [sq] [dq] (replaceL (strL ", None") (strL ", null") (replaceL (strL ": None") (strL ": null") (replaceL (strL ", False") (strL ", false") (replaceL (strL ": False") (strL ": false") (replaceL (strL ", True") (strL ", true") (replaceL (strL ": True") (strL ": true") (mid)))))))) = false :=
      (noRecreate _ _ _ (by decide) (by decide) (by decide) (by decide)
        (by decide) (by decide) _ (Or.inr ob2_6)).1
    have ob3_3 : occursB (strL ": False") (replaceL (strL ": False") (strL ": false") (replaceL (strL ", True") (strL ", true") (replaceL (strL ": True") (strL ": true") (mid)))) = false :=
      (noRecreate _ _ _ (by decide) (by decide) (by decide) (by decide)
        (by decide) (by decide) _ (Or.inl rfl)).1
    have ob3_4 : occursB (strL ": False") (replaceL (strL ", False") (strL ", false") (replaceL (strL ": False") (strL ": false") (replaceL (strL ", True") (strL ", true") (replaceL (strL ": True") (strL ": true") (mid))))) = false :=
      (noRecreate _ _ _ (by decide) (by decide) (by decide) (by decide)
        (by decide) (by decide) _ (Or.inr ob3_3)).1
    have ob3_5 : occursB (strL ": False") (replaceL (strL ": None") (strL ": null") (replaceL (strL ", False") (strL ", false") (replaceL (strL ": False") (strL ": false") (replaceL (strL ", True") (strL ", true") (replaceL (strL ": True") (strL ": true") (mid)))))) = false :=
      (noRecreate _ _ _ (by decide) (by decide) (by decide) (by decide)
        (by decide) (by decide) _ (Or.inr ob3_4)).1
    have ob3_6 : occursB (strL ": False") (replaceL (strL ", None") (strL ", null") (replaceL (strL ": None") (strL ": null") (replaceL (strL ", False") (strL ", false") (replaceL (strL ": False") (strL ": false") (replaceL (strL ", True") (strL ", true") (replaceL (strL ": True") (strL ": true") (mid))))))) = false :=
      (noRecreate _ _ _ (by decide) (by decide) (by decide) (by decide)
        (by decide) (by decide) _ (Or.inr ob3_5)).1
    have ob3_q : occursB (strL ": False") (replaceL [sq] [dq] (replaceL (strL ", None") (strL ", null") (replaceL (strL ": None") (strL ": null") (replaceL (strL ", False") (strL ", false") (replaceL (strL ": False") (strL ": false") (replaceL (strL ", True") (strL ", true") (replaceL (strL ": True") (strL ": true") (mid)))))))) = false :=
      (noRecreate _ _ _ (by decide) (by decide) (by decide) (by decide)
        (by decide) (by decide) _ (Or.inr ob3_6)).1
    have ob4_4 : occursB (strL ", False") (replaceL (strL ", False") (strL ", false") (replaceL (strL ": False") (strL ": false") (replaceL (strL ", True") (strL ", true") (replaceL (strL ": True") (strL ": true") (mid))))) = false :=
      (noRecreate _ _ _ (by decide) (by decide) (by decide) (by decide)
        (by decide) (by decide) _ (Or.inl rfl)).1
    have ob4_5 : occursB (strL ", False") (replaceL (strL ": None") (strL ": null") (replaceL (strL ", False") (strL ", false") (replaceL (strL ": False") (strL ": false") (replaceL (strL ", True") (strL ", true") (replaceL (strL ": True") (strL ": true") (mid)))))) = false :=
      (noRecreate _ _ _ (by decide) (by decide) (by decide) (by decide)
        (by decide) (by decide) _ (Or.inr ob4_4)).1
    have ob4_6 : occursB (strL ", False") (replaceL (strL ", None") (strL ", null") (replaceL (strL ": None") (strL ": null") (replaceL (strL ", False") (strL ", false") (replaceL (strL ": False") (strL ": false") (replaceL (strL ", True") (strL ", true") (replaceL (strL ": True") (strL ": true") (mid))))))) = false :=
      (noRecreate _ _ _ (by decide) (by decide) (by decide) (by decide)
        (by decide) (by decide) _ (Or.inr ob4_5)).1
    have ob4_q : occursB (strL ", False") (replaceL [sq] [dq] (replaceL (strL ", None") (strL ", null") (replaceL (strL ": None") (strL ": null") (replaceL (strL ", False") (strL ", false") (replaceL (strL ": False") (strL ": false") (replaceL (strL ", True") (strL ", true") (replaceL (strL ": True") (strL ": true") (mid)))))))) = false :=
      (noRecreate _ _ _ (by decide) (by decide) (by decide) (by decide)
        (by decide) (by decide) _ (Or.inr ob4_6)).1
    have ob5_5 : occursB (strL ": None") (replaceL (strL ": None") (strL ": null") (replaceL (strL ", False") (strL ", false") (replaceL (strL ": False") (strL ": false") (replaceL (strL ", True") (strL ", true") (replaceL (strL ": True") (strL ": true") (mid)))))) = false :=
      (noRecreate _ _ _ (by decide) (by decide) (by decide) (by decide)
        (by decide) (by decide) _ (Or.inl rfl)).1
    have ob5_6 : occursB (strL ": None") (replaceL (strL ", None") (strL ", null") (replaceL (strL ": None") (strL ": null") (replaceL (strL ", False") (strL ", false") (replaceL (strL ": False") (strL ": false") (replaceL (strL ", True") (strL ", true") (replaceL (strL ": True") (strL ": true") (mid))))))) = false :=
      (noRecreate _ _ _ (by decide) (by decide) (by decide) (by decide)
        (by decide) (by decide) _ (Or.inr ob5_5)).1
    have ob5_q : occursB (strL ": None") (replaceL [sq] [dq] (replaceL (strL ", None") (strL ", null") (replaceL (strL ": None") (strL ": null") (replaceL (strL ", False") (strL ", false") (replaceL (strL ": False") (strL ": false") (replaceL (strL ", True") (strL ", true") (replaceL (strL ": True") (strL ": true") (mid)))))))) = false :=
      (noRecreate _ _ _ (by decide) (by decide) (by decide) (by decide)
        (by decide) (by decide) _ (Or.inr ob5_6)).1
    have ob6_6 : occursB (strL ", None") (replaceL (strL ", None") (strL ", null") (replaceL (strL ": None") (strL ": null") (replaceL (strL ", False") (strL ", false") (replaceL (strL ": False") (strL ": false") (replaceL (strL ", True") (strL ", true") (replaceL (strL ": True") (strL ": true") (mid))))))) = false :=
      (noRecreate _ _ _ (by decide) (by decide) (by decide) (by decide)
        (by decide) (by decide) _ (Or.inl rfl)).1
    have ob6_q : occursB (strL ", None") (replaceL [sq] [dq] (replaceL (strL ", None") (strL ", null") (replaceL (strL ": None") (strL ": null") (replaceL (strL ", False") (strL ", false") (replaceL (strL ": False") (strL ": false") (replaceL (strL ", True") (strL ", true") (replaceL (strL ": True") (strL ": true") (mid)))))))) = false :=
      (noRecreate _ _ _ (by decide) (by decide) (by decide) (by decide)
        (by decide) (by decide) _ (Or.inr ob6_6)).1
    have oq_M : occursB [sq] (replaceL [sq] [dq] (replaceL (strL ", None") (strL ", null") (replaceL (strL ": None") (strL ": null") (replaceL (strL ", False") (strL ", false") (replaceL (strL ": False") (strL ": false") (replaceL (strL ", True") (strL ", true") (replaceL (strL ": True") (strL ": true") (mid)))))))) = false :=
      noocc_of_not_mem (not_mem_replaceL_single sq [dq] (by decide) _)
    have hNL : normalizeLiterals mid = replaceL (strL ", None") (strL ", null") (replaceL (strL ": None") (strL ": null") (replaceL (strL ", False") (strL ", false") (replaceL (strL ": False") (strL ": false") (replaceL (strL ", True") (strL ", true") (replaceL (strL ": True") (strL ": true") (mid)))))) := rfl
    have hbtM : btk ∉ replaceL [sq] [dq] (replaceL (strL ", None") (strL ", null") (replaceL (strL ": None") (strL ": null") (replaceL (strL ", False") (strL ", false") (replaceL (strL ": False") (strL ": false") (replaceL (strL ", True") (strL ", true") (replaceL (strL ": True") (strL ": true") (mid))))))) := by
      rw [← hNL]
      exact not_mem_replaceL _ _ (by decide) _
        (not_mem_normalizeLiterals (by decide) (by decide) (by decide) (by decide)
          (by decide) (by decide) hbtm)
    have hasM : ast ∉ replaceL [sq] [dq] (replaceL (strL ", None") (strL ", null") (replaceL (strL ": None") (strL ": null") (replaceL (strL ", False") (strL ", false") (replaceL (strL ": False") (strL ": false") (replaceL (strL ", True") (strL ", true") (replaceL (strL ": True") (strL ": true") (mid))))))) := by
      rw [← hNL]
      exact not_mem_replaceL _ _ (by decide) _
        (not_mem_normalizeLiterals (by decide) (by decide) (by decide) (by decide)
          (by decide) (by decide) hasm)
    have hbtz : btk ∉ '[' :: replaceL [sq] [dq] (replaceL (strL ", None") (strL ", null") (replaceL (strL ": None") (strL ": null") (replaceL (strL ", False") (strL ", false") (replaceL (strL ": False") (strL ": false") (replaceL (strL ", True") (strL ", true") (replaceL (strL ": True") (strL ": true") (mid))))))) ++ [']'] := by
      intro hm
      rcases List.mem_cons.1 hm with h | h
      · exact absurd h (by decide)
      · rcases List.mem_append.1 h with h2 | h2
        · exact hbtM h2
        · exact absurd (List.mem_singleton.1 h2) (by decide)
    have hasz : ast ∉ '[' :: replaceL [sq] [dq] (replaceL (strL ", None") (strL ", null") (replaceL (strL ": None") (strL ": null") (replaceL (strL ", False") (strL ", false") (replaceL (strL ": False") (strL ": false") (replaceL (strL ", True") (strL ", true") (replaceL (strL ": True") (strL ": true") (mid))))))) ++ [']'] := by
      intro hm
      rcases List.mem_cons.1 hm with h | h
      · exact absurd h (by decide)
      · rcases List.mem_append.1 h with h2 | h2
        · exact hasM h2
        · exact absurd (List.mem_singleton.1 h2) (by decide)
    have hz1 : occursB (strL ": True")
        ('[' :: replaceL [sq] [dq] (replaceL (strL ", None") (strL ", null") (replaceL (strL ": None") (strL ": null") (replaceL (strL ", False") (strL ", false") (replaceL (strL ": False") (strL ": false") (replaceL (strL ", True") (strL ", true") (replaceL (strL ": True") (strL ": true") (mid))))))) ++ [']']) = false :=
      noocc_bracket_wrap (by decide) (by decide) (by decide) ob1_q
    have hz2 : occursB (strL ", True")
        ('[' :: replaceL [sq] [dq] (replaceL (strL ", None") (strL ", null") (replaceL (strL ": None") (strL ": null") (replaceL (strL ", False") (strL ", false") (replaceL (strL ": False") (strL ": false") (replaceL (strL ", True") (strL ", true") (replaceL (strL ": True") (strL ": true") (mid))))))) ++ [']']) = false :=
      noocc_bracket_wrap (by decide) (by decide) (by decide) ob2_q
    have hz3 : occursB (strL ": False")
        ('[' :: replaceL [sq] [dq] (replaceL (strL ", None") (strL ", null") (replaceL (strL ": None") (strL ": null") (replaceL (strL ", False") (strL ", false") (replaceL (strL ": False") (strL ": false") (replaceL (strL ", True") (strL ", true") (replaceL (strL ": True") (strL ": true") (mid))))))) ++ [']']) = false :=
      noocc_bracket_wrap (by decide) (by decide) (by decide) ob3_q
    have hz4 : occursB (strL ", False")
        ('[' :: replaceL [sq] [dq] (replaceL (strL ", None") (strL ", null") (replaceL (strL ": None") (strL ": null") (replaceL (strL ", False") (strL ", false") (replaceL (strL ": False") (strL ": false") (replaceL (strL ", True") (strL ", true") (replaceL (strL ": True") (strL ": true") (mid))))))) ++ [']']) = false :=
      noocc_bracket_wrap (by decide) (by decide) (by decide) ob4_q
    have hz5 : occursB (strL ": None")
        ('[' :: replaceL [sq] [dq] (replaceL (strL ", None") (strL ", null") (replaceL (strL ": None") (strL ": null") (replaceL (strL ", False") (strL ", false") (replaceL (strL ": False") (strL ": false") (replaceL (strL ", True") (strL ", true") (replaceL (strL ": True") (strL ": true") (mid))))))) ++ [']']) = false :=
      noocc_bracket_wrap (by decide) (by decide) (by decide) ob5_q
    have hz6 : occursB (strL ", None")
        ('[' :: replaceL [sq] [dq] (replaceL (strL ", None") (strL ", null") (replaceL (strL ": None") (strL ": null") (replaceL (strL ", False") (strL ", false") (replaceL (strL ": False") (strL ": false") (replaceL (strL ", True") (strL ", true") (replaceL (strL ": True") (strL ": true") (mid))))))) ++ [']']) = false :=
      noocc_bracket_wrap (by decide) (by decide) (by decide) ob6_q
    have hzq : occursB [sq]
        ('[' :: replaceL [sq] [dq] (replaceL (strL ", None") (strL ", null") (replaceL (strL ": None") (strL ": null") (replaceL (strL ", False") (strL ", false") (replaceL (strL ": False") (strL ": false") (replaceL (strL ", True") (strL ", true") (replaceL (strL ": True") (strL ": true") (mid))))))) ++ [']']) = false :=
      noocc_bracket_wrap (by decide) (by decide) (by decide) oq_M
    have ecu : cleanupBracket ('[' :: mid ++ [']']) =
        '[' :: replaceL [sq] [dq] (replaceL (strL ", None") (strL ", null") (replaceL (strL ": None") (strL ": null") (replaceL (strL ", False") (strL ", false") (replaceL (strL ": False") (strL ": false") (replaceL (strL ", True") (strL ", true") (replaceL (strL ": True") (strL ": true") (mid))))))) ++ [']'] := by
      unfold cleanupBracket
      rw [e1, e2, e3, normalizeLiterals_bracket_shape mid,
        replaceL_self (strL " null") (by decide) _,
        replaceL_bracket_shape [sq] [dq] (by decide) (by decide) (by decide) _,
        trimL_shape '[' ']' _ (by decide) (by decide), hNL]
    have ecz : cleanupBracket ('[' :: replaceL [sq] [dq] (replaceL (strL ", None") (strL ", null") (replaceL (strL ": None") (strL ": null") (replaceL (strL ", False") (strL ", false") (replaceL (strL ": False") (strL ": false") (replaceL (strL ", True") (strL ", true") (replaceL (strL ": True") (strL ": true") (mid))))))) ++ [']']) =
        '[' :: replaceL [sq] [dq] (replaceL (strL ", None") (strL ", null") (replaceL (strL ": None") (strL ": null") (replaceL (strL ", False") (strL ", false") (replaceL (strL ": False") (strL ": false") (replaceL (strL ", True") (strL ", true") (replaceL (strL ": True") (strL ": true") (mid))))))) ++ [']'] := by
      unfold cleanupBracket
      rw [replaceL_noocc _ _ _
          (noocc_of_missing_char (show btk ∈ strL "```json" by decide) hbtz),
        replaceL_noocc _ _ _
          (noocc_of_missing_char (show btk ∈ strL "```" by decide) hbtz),
        replaceL_noocc _ _ _
          (noocc_of_missing_char (show ast ∈ strL "**" by decide) hasz),
        show normalizeLiterals ('[' :: replaceL [sq] [dq] (replaceL (strL ", None") (strL ", null") (replaceL (strL ": None") (strL ": null") (replaceL (strL ", False") (strL ", false") (replaceL (strL ": False") (strL ": false") (replaceL (strL ", True") (strL ", true") (replaceL (strL ": True") (strL ": true") (mid))))))) ++ [']']) =
            '[' :: replaceL [sq] [dq] (replaceL (strL ", None") (strL ", null") (replaceL (strL ": None") (strL ": null") (replaceL (strL ", False") (strL ", false") (replaceL (strL ": False") (strL ": false") (replaceL (strL ", True") (strL ", true") (replaceL (strL ": True") (strL ": true") (mid))))))) ++ [']'] from by
          unfold normalizeLiterals
          rw [replaceL_noocc _ _ _ hz1, replaceL_noocc _ _ _ hz2,
            replaceL_noocc _ _ _ hz3, replaceL_noocc _ _ _ hz4,
            replaceL_noocc _ _ _ hz5, replaceL_noocc _ _ _ hz6],
        replaceL_self (strL " null") (by decide) _,
        replaceL_noocc _ _ _ hzq]
      exact trimL_shape '[' ']' _ (by decide) (by decide)
    have estep1 : repairPlanText raw =
        braceBalance ('[' :: replaceL [sq] [dq] (replaceL (strL ", None") (strL ", null") (replaceL (strL ": None") (strL ": null") (replaceL (strL ", False") (strL ", false") (replaceL (strL ": False") (strL ": false") (replaceL (strL ", True") (strL ", true") (replaceL (strL ": True") (strL ": true") (mid))))))) ++ [']']) := by
      unfold repairPlanText
      rw [hs]
      show braceBalance (cleanupBracket ('[' :: mid ++ [']'])) = _
      rw [ecu]
    have e5 : sliceToBrackets
        (braceBalance ('[' :: replaceL [sq] [dq] (replaceL (strL ", None") (strL ", null") (replaceL (strL ": None") (strL ": null") (replaceL (strL ", False") (strL ", false") (replaceL (strL ": False") (strL ": false") (replaceL (strL ", True") (strL ", true") (replaceL (strL ": True") (strL ": true") (mid))))))) ++ [']'])) =
        some ('[' :: replaceL [sq] [dq] (replaceL (strL ", None") (strL ", null") (replaceL (strL ": None") (strL ": null") (replaceL (strL ", False") (strL ", false") (replaceL (strL ": False") (strL ": false") (replaceL (strL ", True") (strL ", true") (replaceL (strL ": True") (strL ": true") (mid))))))) ++ [']']) := by
      by_cases hcond : ('[' :: replaceL [sq] [dq] (replaceL (strL ", None") (strL ", null") (replaceL (strL ": None") (strL ": null") (replaceL (strL ", False") (strL ", false") (replaceL (strL ": False") (strL ": false") (replaceL (strL ", True") (strL ", true") (replaceL (strL ": True") (strL ": true") (mid))))))) ++ [']']).count obr > ('[' :: replaceL [sq] [dq] (replaceL (strL ", None") (strL ", null") (replaceL (strL ": None") (strL ": null") (replaceL (strL ", False") (strL ", false") (replaceL (strL ": False") (strL ": false") (replaceL (strL ", True") (strL ", true") (replaceL (strL ": True") (strL ": true") (mid))))))) ++ [']']).count cbr
      · rw [braceBalance_pos hcond]
        exact sliceToBrackets_shape _ _
      · rw [braceBalance_nonpos hcond]
        simpa using sliceToBrackets_shape (replaceL [sq] [dq] (replaceL (strL ", None") (strL ", null") (replaceL (strL ": None") (strL ": null") (replaceL (strL ", False") (strL ", false") (replaceL (strL ": False") (strL ": false") (replaceL (strL ", True") (strL ", true") (replaceL (strL ": True") (strL ": true") (mid)))))))) 0
    calc repairPlanText (repairPlanText raw)
        = repairPlanText (braceBalance ('[' :: replaceL [sq] [dq] (replaceL (strL ", None") (strL ", null") (replaceL (strL ": None") (strL ": null") (replaceL (strL ", False") (strL ", false") (replaceL (strL ": False") (strL ": false") (replaceL (strL ", True") (strL ", true") (replaceL (strL ": True") (strL ": true") (mid))))))) ++ [']'])) := by
          rw [estep1]
      _ = braceBalance (cleanupBracket ('[' :: replaceL [sq] [dq] (replaceL (strL ", None") (strL ", null") (replaceL (strL ": None") (strL ": null") (replaceL (strL ", False") (strL ", false") (replaceL (strL ": False") (strL ": false") (replaceL (strL ", True") (strL ", true") (replaceL (strL ": True") (strL ": true") (mid))))))) ++ [']'])) := by
          unfold repairPlanText
          rw [e5]
      _ = braceBalance ('[' :: replaceL [sq] [dq] (replaceL (strL ", None") (strL ", null") (replaceL (strL ": None") (strL ": null") (replaceL (strL ", False") (strL ", false") (replaceL (strL ": False") (strL ": false") (replaceL (strL ", True") (strL ", true") (replaceL (strL ": True") (strL ": true") (mid))))))) ++ [']']) := by rw [ecz]
      _ = repairPlanText raw := estep1.symm
  | none =>
    have f0_0 : occursB (strL ": True") (replaceL (strL ": True") (strL ": true") (raw)) = false :=
      (noRecreate _ _ _ (by decide) (by decide) (by decide) (by decide)
        (by decide) (by decide) _ (Or.inl rfl)).1
    have f0_1 : occursB (strL ": True") (replaceL (strL ": False") (strL ": false") (replaceL (strL ": True") (strL ": true") (raw))) = false :=
      (noRecreate _ _ _ (by decide) (by decide) (by decide) (by decide)
        (by decide) (by decide) _ (Or.inr f0_0)).1
    have f0_2 : occursB (strL ": True") (replaceL (strL ": None") (strL ": null") (replaceL (strL ": False") (strL ": false") (replaceL (strL ": True") (strL ": true") (raw)))) = false :=
      (noRecreate _ _ _ (by decide) (by decide) (by decide) (by decide)
        (by decide) (by decide) _ (Or.inr f0_1)).1
    have f0_q : occursB (strL ": True") (replaceL [sq] [dq] (replaceL (strL ": None") (strL ": null") (replaceL (strL ": False") (strL ": false") (replaceL (strL ": True") (strL ": true") (raw))))) = false :=
      (noRecreate _ _ _ (by decide) (by decide) (by decide) (by decide)
        (by decide) (by decide) _ (Or.inr f0_2)).1
    have f2_1 : occursB (strL ": False") (replaceL (strL ": False") (strL ": false") (replaceL (strL ": True") (strL ": true") (raw))) = false :=
      (noRecreate _ _ _ (by decide) (by decide) (by decide) (by decide)
        (by decide) (by decide) _ (Or.inl rfl)).1
    have f2_2 : occursB (strL ": False") (replaceL (strL ": None") (strL ": null") (replaceL (strL ": False") (strL ": false") (replaceL (strL ": True") (strL ": true") (raw)))) = false :=
      (noRecreate _ _ _ (by decide) (by decide) (by decide) (by decide)
        (by decide) (by decide) _ (Or.inr f2_1)).1
    have f2_q : occursB (strL ": False") (replaceL [sq] [dq] (replaceL (strL ": None") (strL ": null") (replaceL (strL ": False") (strL ": false") (replaceL (strL ": True") (strL ": true") (raw))))) = false :=
      (noRecreate _ _ _ (by decide) (by decide) (by decide) (by decide)
        (by decide) (by decide) _ (Or.inr f2_2)).1
    have f4_2 : occursB (strL ": None") (replaceL (strL ": None") (strL ": null") (replaceL (strL ": False") (strL ": false") (replaceL (strL ": True") (strL ": true") (raw)))) = false :=
      (noRecreate _ _ _ (by decide) (by decide) (by decide) (by decide)
        (by decide) (by decide) _ (Or.inl rfl)).1
    have f4_q : occursB (strL ": None") (replaceL [sq] [dq] (replaceL (strL ": None") (strL ": null") (replaceL (strL ": False") (strL ": false") (replaceL (strL ": True") (strL ": true") (raw))))) = false :=
      (noRecreate _ _ _ (by decide) (by decide) (by decide) (by decide)
        (by decide) (by decide) _ (Or.inr f4_2)).1
    have fq_q : occursB [sq] (replaceL [sq] [dq] (replaceL (strL ": None") (strL ": null") (replaceL (strL ": False") (strL ": false") (replaceL (strL ": True") (strL ": true") (raw))))) = false :=
      noocc_of_not_mem (not_mem_replaceL_single sq [dq] (by decide) _)
    have hcf : cleanupFallback raw = replaceL [sq] [dq] (replaceL (strL ": None") (strL ": null") (replaceL (strL ": False") (strL ": false") (replaceL (strL ": True") (strL ": true") (raw)))) := by
      unfold cleanupFallback
      rw [replaceL_self (strL " null") (by decide) _]
    have hfind : findPos '[' (replaceL [sq] [dq] (replaceL (strL ": None") (strL ": null") (replaceL (strL ": False") (strL ": false") (replaceL (strL ": True") (strL ": true") (raw))))) = findPos '[' raw := by
      rw [findPos_replaceL '[' [sq] [dq] (by decide) (by decide) (by decide) (by decide),
        findPos_replaceL '[' (strL ": None") (strL ": null") (by decide) (by decide)
          (by decide) (by decide),
        findPos_replaceL '[' (strL ": False") (strL ": false") (by decide) (by decide)
          (by decide) (by decide),
        findPos_replaceL '[' (strL ": True") (strL ": true") (by decide) (by decide)
          (by decide) (by decide)]
    have hrfind : rfindPos ']' (replaceL [sq] [dq] (replaceL (strL ": None") (strL ": null") (replaceL (strL ": False") (strL ": false") (replaceL (strL ": True") (strL ": true") (raw))))) = rfindPos ']' raw := by
      rw [rfindPos_replaceL ']' [sq] [dq] (by decide) (by decide) (by decide) (by decide),
        rfindPos_replaceL ']' (strL ": None") (strL ": null") (by decide) (by decide)
          (by decide) (by decide),
        rfindPos_replaceL ']' (strL ": False") (strL ": false") (by decide) (by decide)
          (by decide) (by decide),
        rfindPos_replaceL ']' (strL ": True") (strL ": true") (by decide) (by decide)
          (by decide) (by decide)]
    have hnorep1 : '[' ∉ List.replicate
        ((replaceL [sq] [dq] (replaceL (strL ": None") (strL ": null") (replaceL (strL ": False") (strL ": false") (replaceL (strL ": True") (strL ": true") (raw))))).count obr -
          (replaceL [sq] [dq] (replaceL (strL ": None") (strL ": null") (replaceL (strL ": False") (strL ": false") (replaceL (strL ": True") (strL ": true") (raw))))).count cbr) cbr := fun hm =>
      absurd (List.eq_of_mem_replicate hm) (by decide)
    have hff : findPos '[' (braceBalance (replaceL [sq] [dq] (replaceL (strL ": None") (strL ": null") (replaceL (strL ": False") (strL ": false") (replaceL (strL ": True") (strL ": true") (raw)))))) =
        findPos '[' (replaceL [sq] [dq] (replaceL (strL ": None") (strL ": null") (replaceL (strL ": False") (strL ": false") (replaceL (strL ": True") (strL ": true") (raw))))) := by
      by_cases hcond : (replaceL [sq] [dq] (replaceL (strL ": None") (strL ": null") (replaceL (strL ": False") (strL ": false") (replaceL (strL ": True") (strL ": true") (raw))))).count obr > (replaceL [sq] [dq] (replaceL (strL ": None") (strL ": null") (replaceL (strL ": False") (strL ": false") (replaceL (strL ": True") (strL ": true") (raw))))).count cbr
      · rw [braceBalance_pos hcond]
        exact findPos_append_notmem _ hnorep1
      · rw [braceBalance_nonpos hcond]
    have hrr : rfindPos ']' (braceBalance (replaceL [sq] [dq] (replaceL (strL ": None") (strL ": null") (replaceL (strL ": False") (strL ": false") (replaceL (strL ": True") (strL ": true") (raw)))))) =
        rfindPos ']' (replaceL [sq] [dq] (replaceL (strL ": None") (strL ": null") (replaceL (strL ": False") (strL ": false") (replaceL (strL ": True") (strL ": true") (raw))))) := by
      by_cases hcond : (replaceL [sq] [dq] (replaceL (strL ": None") (strL ": null") (replaceL (strL ": False") (strL ": false") (replaceL (strL ": True") (strL ": true") (raw))))).count obr > (replaceL [sq] [dq] (replaceL (strL ": None") (strL ": null") (replaceL (strL ": False") (strL ": false") (replaceL (strL ": True") (strL ": true") (raw))))).count cbr
      · rw [braceBalance_pos hcond]
        rw [rfindPos_append, rfindPos_eq_none.2
          (fun hm => absurd (List.eq_of_mem_replicate hm) (by decide))]
      · rw [braceBalance_nonpos hcond]
    have e5f : sliceToBrackets (braceBalance (replaceL [sq] [dq] (replaceL (strL ": None") (strL ": null") (replaceL (strL ": False") (strL ": false") (replaceL (strL ": True") (strL ": true") (raw)))))) = none :=
      sliceToBrackets_none_of_finds (hff.trans hfind) (hrr.trans hrfind) hs
    have h1y : occursB (strL ": True") (braceBalance (replaceL [sq] [dq] (replaceL (strL ": None") (strL ": null") (replaceL (strL ": False") (strL ": false") (replaceL (strL ": True") (strL ": true") (raw)))))) = false := by
      by_cases hcond : (replaceL [sq] [dq] (replaceL (strL ": None") (strL ": null") (replaceL (strL ": False") (strL ": false") (replaceL (strL ": True") (strL ": true") (raw))))).count obr > (replaceL [sq] [dq] (replaceL (strL ": None") (strL ": null") (replaceL (strL ": False") (strL ": false") (replaceL (strL ": True") (strL ": true") (raw))))).count cbr
      · rw [braceBalance_pos hcond]
        exact noocc_append_replicate _ _ _ _ f0_q (by decide) (by decide)
      · rw [braceBalance_nonpos hcond]
        exact f0_q
    have h3y : occursB (strL ": False") (braceBalance (replaceL [sq] [dq] (replaceL (strL ": None") (strL ": null") (replaceL (strL ": False") (strL ": false") (replaceL (strL ": True") (strL ": true") (raw)))))) = false := by
      by_cases hcond : (replaceL [sq] [dq] (replaceL (strL ": None") (strL ": null") (replaceL (strL ": False") (strL ": false") (replaceL (strL ": True") (strL ": true") (raw))))).count obr > (replaceL [sq] [dq] (replaceL (strL ": None") (strL ": null") (replaceL (strL ": False") (strL ": false") (replaceL (strL ": True") (strL ": true") (raw))))).count cbr
      · rw [braceBalance_pos hcond]
        exact noocc_append_replicate _ _ _ _ f2_q (by decide) (by decide)
      · rw [braceBalance_nonpos hcond]
        exact f2_q
    have h5y : occursB (strL ": None") (braceBalance (replaceL [sq] [dq] (replaceL (strL ": None") (strL ": null") (replaceL (strL ": False") (strL ": false") (replaceL (strL ": True") (strL ": true") (raw)))))) = false := by
      by_cases hcond : (replaceL [sq] [dq] (replaceL (strL ": None") (strL ": null") (replaceL (strL ": False") (strL ": false") (replaceL (strL ": True") (strL ": true") (raw))))).count obr > (replaceL [sq] [dq] (replaceL (strL ": None") (strL ": null") (replaceL (strL ": False") (strL ": false") (replaceL (strL ": True") (strL ": true") (raw))))).count cbr
      · rw [braceBalance_pos hcond]
        exact noocc_append_replicate _ _ _ _ f4_q (by decide) (by decide)
      · rw [braceBalance_nonpos hcond]
        exact f4_q
    have hqy : occursB [sq] (braceBalance (replaceL [sq] [dq] (replaceL (strL ": None") (strL ": null") (replaceL (strL ": False") (strL ": false") (replaceL (strL ": True") (strL ": true") (raw)))))) = false := by
      by_cases hcond : (replaceL [sq] [dq] (replaceL (strL ": None") (strL ": null") (replaceL (strL ": False") (strL ": false") (replaceL (strL ": True") (strL ": true") (raw))))).count obr > (replaceL [sq] [dq] (replaceL (strL ": None") (strL ": null") (replaceL (strL ": False") (strL ": false") (replaceL (strL ": True") (strL ": true") (raw))))).count cbr
      · rw [braceBalance_pos hcond]
        exact noocc_append_replicate _ _ _ _ fq_q (by decide) (by decide)
      · rw [braceBalance_nonpos hcond]
        exact fq_q
    have ecf : cleanupFallback (braceBalance (replaceL [sq] [dq] (replaceL (strL ": None") (strL ": null") (replaceL (strL ": False") (strL ": false") (replaceL (strL ": True") (strL ": true") (raw)))))) =
        braceBalance (replaceL [sq] [dq] (replaceL (strL ": None") (strL ": null") (replaceL (strL ": False") (strL ": false") (replaceL (strL ": True") (strL ": true") (raw))))) := by
      unfold cleanupFallback
      rw [replaceL_noocc _ _ _ h1y, replaceL_noocc _ _ _ h3y, replaceL_noocc _ _ _ h5y,
        replaceL_self (strL " null") (by decide) _, replaceL_noocc _ _ _ hqy]
    have estep1 : repairPlanText raw = braceBalance (replaceL [sq] [dq] (replaceL (strL ": None") (strL ": null") (replaceL (strL ": False") (strL ": false") (replaceL (strL ": True") (strL ": true") (raw))))) := by
      unfold repairPlanText
      rw [hs]
      show braceBalance (cleanupFallback raw) = _
      rw [hcf]
    calc repairPlanText (repairPlanText raw)
        = repairPlanText (braceBalance (replaceL [sq] [dq] (replaceL (strL ": None") (strL ": null") (replaceL (strL ": False") (strL ": false") (replaceL (strL ": True") (strL ": true") (raw)))))) := by rw [estep1]
      _ = braceBalance (cleanupFallback (braceBalance (replaceL [sq] [dq] (replaceL (strL ": None") (strL ": null") (replaceL (strL ": False") (strL ": false") (replaceL (strL ": True") (strL ": true") (raw))))))) := by
          unfold repairPlanText
          rw [e5f]
      _ = braceBalance (braceBalance (replaceL [sq] [dq] (replaceL (strL ": None") (strL ": null") (replaceL (strL ": False") (strL ": false") (replaceL (strL ": True") (strL ": true") (raw)))))) := by rw [ecf]
      _ = braceBalance (replaceL [sq] [dq] (replaceL (strL ": None") (strL ": null") (replaceL (strL ": False") (strL ": false") (replaceL (strL ": True") (strL ": true") (raw))))) := braceBalance_idem _
      _ = repairPlanText raw := estep1.symm

theorem repair_idempotent_witness :
    btk ∉ strL "[1, 2]" ∧ ast ∉ strL "[1, 2]" ∧
    repairPlanText (repairPlanText (strL "[1, 2]")) = repairPlanText (strL "[1, 2]") :=
  ⟨by decide, by decide, repair_idempotent (strL "[1, 2]") (by decide) (by decide)⟩

/-! ### C7: literal normalization as a single left-to-right pass -/

theorem notTrue_eq_false {b : Bool} (h : ¬ b = true) : b = false := by
  cases b
  · rfl
  · exact absurd rfl h

/-- A suffix of the pattern of interest `p` is a prefix of a replacement
stage's output only if it already was a prefix of the stage's input,
provided no suffix of `p` is a prefix of the stage's replacement text `q₂`
and `q₂` does not occur inside `p`. -/
theorem prefTransfer (p p₂ q₂ : List Char)
    (hN2 : ∀ k, k < p.length → (p.drop k).isPrefixOf q₂ = false)
    (hN3 : occursB q₂ p = false) :
    ∀ s k, k < p.length →
      (p.drop k).isPrefixOf (replaceL p₂ q₂ s) = true →
        (p.drop k).isPrefixOf s = true := by
  suffices H : ∀ n s, s.length = n → ∀ k, k < p.length →
      (p.drop k).isPrefixOf (replaceL p₂ q₂ s) = true →
        (p.drop k).isPrefixOf s = true from
    fun s => H s.length s rfl
  intro n
  induction n using Nat.strong_induction_on with
  | _ n ih =>
    intro s hlen k hk hpre
    match s with
    | [] =>
      rw [replaceL_nil] at hpre
      exact hpre
    | c :: t =>
      by_cases hm : p₂.isPrefixOf (c :: t) = true
      · rw [replaceL_cons_pos p₂ q₂ c t hm] at hpre
        rcases prefix_append_split (prefOf_iff.1 hpre) with h1 | ⟨y, hy, _⟩
        · exfalso
          have hb := prefOf_iff.2 h1
          rw [hN2 k hk] at hb
          cases hb
        · exfalso
          have hq2p : occursB q₂ p = true := by
            apply occursB_iff.2
            have h1 : q₂ <+: p.drop k := ⟨y, hy.symm⟩
            exact h1.isInfix.trans (List.drop_suffix k p).isInfix
          rw [hN3] at hq2p
          cases hq2p
      · have hmf : p₂.isPrefixOf (c :: t) = false := notTrue_eq_false hm
        rw [replaceL_cons_neg p₂ q₂ c t hmf] at hpre
        have hlen' : t.length < n := by
          have hl : (c :: t).length = n := hlen
          simp only [List.length_cons] at hl
          omega
        cases hdk : p.drop k with
        | nil => exact absurd hdk (drop_ne_nil_of_lt hk)
        | cons d y' =>
          rw [hdk] at hpre
          simp only [List.isPrefixOf, Bool.and_eq_true, beq_iff_eq] at hpre ⊢
          obtain ⟨hdc, hy'⟩ := hpre
          refine ⟨hdc, ?_⟩
          by_cases hnil : y' = []
          · subst hnil
            simp [List.isPrefixOf]
          · have hyeq : p.drop (k + 1) = y' := by
              have hd := List.drop_drop 1 k p
              rw [hdk] at hd
              simpa [Nat.add_comm] using hd.symm
            have hk1 : k + 1 < p.length := by
              by_contra hcon
              push_neg at hcon
              rw [List.drop_eq_nil_of_le hcon] at hyeq
              exact hnil hyeq.symm
            have h2 := ih t.length hlen' t rfl (k + 1) hk1 (by rw [hyeq]; exact hy')
            rw [hyeq] at h2
            exact h2

/-- If a pattern of length at least two does not start at the head of
`c :: t`, and prefixes of its tail transfer back from `Z` to `t`, then it
does not start at the head of `c :: Z` either. -/
theorem pref_cons_chain_false (p : List Char) (hp2 : 1 < p.length) (c : Char)
    (t Z : List Char)
    (htr : (p.drop 1).isPrefixOf Z = true → (p.drop 1).isPrefixOf t = true)
    (hf : p.isPrefixOf (c :: t) = false) : p.isPrefixOf (c :: Z) = false := by
  cases hx : p.isPrefixOf (c :: Z) with
  | false => rfl
  | true =>
    exfalso
    obtain ⟨d0, p', hpeq⟩ : ∃ d0 p', p = d0 :: p' := by
      cases p with
      | nil => simp at hp2
      | cons d pp => exact ⟨d, pp, rfl⟩
    subst hpeq
    simp only [List.isPrefixOf, Bool.and_eq_true, beq_iff_eq] at hx
    obtain ⟨hdc, hpZ⟩ := hx
    have hpt : p'.isPrefixOf t = true := htr hpZ
    have hgood : (d0 :: p').isPrefixOf (c :: t) = true := by
      simp only [List.isPrefixOf, Bool.and_eq_true, beq_iff_eq]
      exact ⟨hdc, hpt⟩
    rw [hgood] at hf
    cases hf

theorem lowerGo_eq : ∀ f s, s.length ≤ f → lowerGo f s = lowerLiteralPass s := by
  intro f
  induction f using Nat.strong_induction_on with
  | _ f ih =>
    intro s hs
    match f, s with
    | 0, s =>
      interval_cases hl : s.length
      · rw [List.length_eq_zero] at hl
        subst hl
        rfl
    | f + 1, [] => rfl
    | f + 1, c :: rest =>
      simp only [List.length_cons, Nat.add_le_add_iff_right] at hs
      show lowerGo (f + 1) (c :: rest) = lowerGo (rest.length + 1) (c :: rest)
      simp only [lowerGo]
      by_cases h1 : (strL ": True").isPrefixOf (c :: rest) = true
      · simp only [h1, if_true]
        have hd : (c :: rest).drop 6 = rest.drop 5 := rfl
        rw [hd, ih f (Nat.lt_succ_self f) _ (le_trans (len_drop_le rest 5) hs),
          ih rest.length (Nat.lt_succ_of_le hs) _ (len_drop_le rest 5)]
      · simp only [h1, Bool.false_eq_true, if_false]
        by_cases h2 : (strL ", True").isPrefixOf (c :: rest) = true
        · simp only [h2, if_true]
          have hd : (c :: rest).drop 6 = rest.drop 5 := rfl
          rw [hd, ih f (Nat.lt_succ_self f) _ (le_trans (len_drop_le rest 5) hs),
            ih rest.length (Nat.lt_succ_of_le hs) _ (len_drop_le rest 5)]
        · simp only [h2, Bool.false_eq_true, if_false]
          by_cases h3 : (strL ": False").isPrefixOf (c :: rest) = true
          · simp only [h3, if_true]
            have hd : (c :: rest).drop 7 = rest.drop 6 := rfl
            rw [hd, ih f (Nat.lt_succ_self f) _ (le_trans (len_drop_le rest 6) hs),
              ih rest.length (Nat.lt_succ_of_le hs) _ (len_drop_le rest 6)]
          · simp only [h3, Bool.false_eq_true, if_false]
            by_cases h4 : (strL ", False").isPrefixOf (c :: rest) = true
            · simp only [h4, if_true]
              have hd : (c :: rest).drop 7 = rest.drop 6 := rfl
              rw [hd, ih f (Nat.lt_succ_self f) _ (le_trans (len_drop_le rest 6) hs),
                ih rest.length (Nat.lt_succ_of_le hs) _ (len_drop_le rest 6)]
            · simp only [h4, Bool.false_eq_true, if_false]
              by_cases h5 : (strL ": None").isPrefixOf (c :: rest) = true
              · simp only [h5, if_true]
                have hd : (c :: rest).drop 6 = rest.drop 5 := rfl
                rw [hd, ih f (Nat.lt_succ_self f) _ (le_trans (len_drop_le rest 5) hs),
                  ih rest.length (Nat.lt_succ_of_le hs) _ (len_drop_le rest 5)]
              · simp only [h5, Bool.false_eq_true, if_false]
                by_cases h6 : (strL ", None").isPrefixOf (c :: rest) = true
                · simp only [h6, if_true]
                  have hd : (c :: rest).drop 6 = rest.drop 5 := rfl
                  rw [hd, ih f (Nat.lt_succ_self f) _ (le_trans (len_drop_le rest 5) hs),
                    ih rest.length (Nat.lt_succ_of_le hs) _ (len_drop_le rest 5)]
                · simp only [h6, Bool.false_eq_true, if_false]
                  rw [ih f (Nat.lt_succ_self f) rest hs,
                    ih rest.length (Nat.lt_succ_of_le hs) rest le_rfl]

theorem npf_1_2 (X : List Char) :
    (strL ": True").isPrefixOf (strL ", True" ++ X) = false := by
  rw [eTc, eTm]
  simp [List.isPrefixOf]

theorem npf_1_3 (X : List Char) :
    (strL ": True").isPrefixOf (strL ": False" ++ X) = false := by
  rw [eTc, eFc]
  simp [List.isPrefixOf]

theorem npf_2_3 (X : List Char) :
    (strL ", True").isPrefixOf (strL ": False" ++ X) = false := by
  rw [eTm, eFc]
  simp [List.isPrefixOf]

theorem npf_1_4 (X : List Char) :
    (strL ": True").isPrefixOf (strL ", False" ++ X) = false := by
  rw [eTc, eFm]
  simp [List.isPrefixOf]

theorem npf_2_4 (X : List Char) :
    (strL ", True").isPrefixOf (strL ", False" ++ X) = false := by
  rw [eTm, eFm]
  simp [List.isPrefixOf]

theorem npf_3_4 (X : List Char) :
    (strL ": False").isPrefixOf (strL ", False" ++ X) = false := by
  rw [eFc, eFm]
  simp [List.isPrefixOf]

theorem npf_1_5 (X : List Char) :
    (strL ": True").isPrefixOf (strL ": None" ++ X) = false := by
  rw [eTc, eNc]
  simp [List.isPrefixOf]

theorem npf_2_5 (X : List Char) :
    (strL ", True").isPrefixOf (strL ": None" ++ X) = false := by
  rw [eTm, eNc]
  simp [List.isPrefixOf]

theorem npf_3_5 (X : List Char) :
    (strL ": False").isPrefixOf (strL ": None" ++ X) = false := by
  rw [eFc, eNc]
  simp [List.isPrefixOf]

theorem npf_4_5 (X : List Char) :
    (strL ", False").isPrefixOf (strL ": None" ++ X) = false := by
  rw [eFm, eNc]
  simp [List.isPrefixOf]

theorem npf_1_6 (X : List Char) :
    (strL ": True").isPrefixOf (strL ", None" ++ X) = false := by
  rw [eTc, eNm]
  simp [List.isPrefixOf]

theorem npf_2_6 (X : List Char) :
    (strL ", True").isPrefixOf (strL ", None" ++ X) = false := by
  rw [eTm, eNm]
  simp [List.isPrefixOf]

theorem npf_3_6 (X : List Char) :
    (strL ": False").isPrefixOf (strL ", None" ++ X) = false := by
  rw [eFc, eNm]
  simp [List.isPrefixOf]

theorem npf_4_6 (X : List Char) :
    (strL ", False").isPrefixOf (strL ", None" ++ X) = false := by
  rw [eFm, eNm]
  simp [List.isPrefixOf]

theorem npf_5_6 (X : List Char) :
    (strL ": None").isPrefixOf (strL ", None" ++ X) = false := by
  rw [eNc, eNm]
  simp [List.isPrefixOf]

theorem skA_1_2 (Y : List Char) :
    replaceL (strL ": True") (strL ": true") (strL ", True" ++ Y) =
      strL ", True" ++ replaceL (strL ": True") (strL ": true") Y := by
  rw [eTc, qTc, eTm]
  exact replaceL_skip ':' _ _ ([',', ' ', 'T', 'r', 'u', 'e']) Y (by decide)

theorem skA_1_3 (Y : List Char) :
    replaceL (strL ": True") (strL ": true") (strL ": False" ++ Y) =
      strL ": False" ++ replaceL (strL ": True") (strL ": true") Y := by
  rw [eTc, qTc, eFc]
  exact replaceL_concrete_skip _ _ _ Y (by intro n hn; simp only [List.length_cons, List.length_nil] at hn; interval_cases n <;> simp [List.isPrefixOf])

theorem skA_2_3 (Y : List Char) :
    replaceL (strL ", True") (strL ", true") (strL ": False" ++ Y) =
      strL ": False" ++ replaceL (strL ", True") (strL ", true") Y := by
  rw [eTm, qTm, eFc]
  exact replaceL_skip ',' _ _ ([':', ' ', 'F', 'a', 'l', 's', 'e']) Y (by decide)

theorem skA_1_4 (Y : List Char) :
    replaceL (strL ": True") (strL ": true") (strL ", False" ++ Y) =
      strL ", False" ++ replaceL (strL ": True") (strL ": true") Y := by
  rw [eTc, qTc, eFm]
  exact replaceL_skip ':' _ _ ([',', ' ', 'F', 'a', 'l', 's', 'e']) Y (by decide)

theorem skA_2_4 (Y : List Char) :
    replaceL (strL ", True") (strL ", true") (strL ", False" ++ Y) =
      strL ", False" ++ replaceL (strL ", True") (strL ", true") Y := by
  rw [eTm, qTm, eFm]
  exact replaceL_concrete_skip _ _ _ Y (by intro n hn; simp only [List.length_cons, List.length_nil] at hn; interval_cases n <;> simp [List.isPrefixOf])

theorem skA_3_4 (Y : List Char) :
    replaceL (strL ": False") (strL ": false") (strL ", False" ++ Y) =
      strL ", False" ++ replaceL (strL ": False") (strL ": false") Y := by
  rw [eFc, qFc, eFm]
  exact replaceL_skip ':' _ _ ([',', ' ', 'F', 'a', 'l', 's', 'e']) Y (by decide)

theorem skA_1_5 (Y : List Char) :
    replaceL (strL ": True") (strL ": true") (strL ": None" ++ Y) =
      strL ": None" ++ replaceL (strL ": True") (strL ": true") Y := by
  rw [eTc, qTc, eNc]
  exact replaceL_concrete_skip _ _ _ Y (by intro n hn; simp only [List.length_cons, List.length_nil] at hn; interval_cases n <;> simp [List.isPrefixOf])

theorem skA_2_5 (Y : List Char) :
    replaceL (strL ", True") (strL ", true") (strL ": None" ++ Y) =
      strL ": None" ++ replaceL (strL ", True") (strL ", true") Y := by
  rw [eTm, qTm, eNc]
  exact replaceL_skip ',' _ _ ([':', ' ', 'N', 'o', 'n', 'e']) Y (by decide)

theorem skA_3_5 (Y : List Char) :
    replaceL (strL ": False") (strL ": false") (strL ": None" ++ Y) =
      strL ": None" ++ replaceL (strL ": False") (strL ": false") Y := by
  rw [eFc, qFc, eNc]
  exact replaceL_concrete_skip _ _ _ Y (by intro n hn; simp only [List.length_cons, List.length_nil] at hn; interval_cases n <;> simp [List.isPrefixOf])

theorem skA_4_5 (Y : List Char) :
    replaceL (strL ", False") (strL ", false") (strL ": None" ++ Y) =
      strL ": None" ++ replaceL (strL ", False") (strL ", false") Y := by
  rw [eFm, qFm, eNc]
  exact replaceL_skip ',' _ _ ([':', ' ', 'N', 'o', 'n', 'e']) Y (by decide)

theorem skA_1_6 (Y : List Char) :
    replaceL (strL ": True") (strL ": true") (strL ", None" ++ Y) =
      strL ", None" ++ replaceL (strL ": True") (strL ": true") Y := by
  rw [eTc, qTc, eNm]
  exact replaceL_skip ':' _ _ ([',', ' ', 'N', 'o', 'n', 'e']) Y (by decide)

theorem skA_2_6 (Y : List Char) :
    replaceL (strL ", True") (strL ", true") (strL ", None" ++ Y) =
      strL ", None" ++ replaceL (strL ", True") (strL ", true") Y := by
  rw [eTm, qTm, eNm]
  exact replaceL_concrete_skip _ _ _ Y (by intro n hn; simp only [List.length_cons, List.length_nil] at hn; interval_cases n <;> simp [List.isPrefixOf])

theorem skA_3_6 (Y : List Char) :
    replaceL (strL ": False") (strL ": false") (strL ", None" ++ Y) =
      strL ", None" ++ replaceL (strL ": False") (strL ": false") Y := by
  rw [eFc, qFc, eNm]
  exact replaceL_skip ':' _ _ ([',', ' ', 'N', 'o', 'n', 'e']) Y (by decide)

theorem skA_4_6 (Y : List Char) :
    replaceL (strL ", False") (strL ", false") (strL ", None" ++ Y) =
      strL ", None" ++ replaceL (strL ", False") (strL ", false") Y := by
  rw [eFm, qFm, eNm]
  exact replaceL_concrete_skip _ _ _ Y (by intro n hn; simp only [List.length_cons, List.length_nil] at hn; interval_cases n <;> simp [List.isPrefixOf])

theorem skA_5_6 (Y : List Char) :
    replaceL (strL ": None") (strL ": null") (strL ", None" ++ Y) =
      strL ", None" ++ replaceL (strL ": None") (strL ": null") Y := by
  rw [eNc, qNc, eNm]
  exact replaceL_skip ':' _ _ ([',', ' ', 'N', 'o', 'n', 'e']) Y (by decide)

theorem skQ_2_1 (Y : List Char) :
    replaceL (strL ", True") (strL ", true") (strL ": true" ++ Y) =
      strL ": true" ++ replaceL (strL ", True") (strL ", true") Y := by
  rw [eTm, qTm, qTc]
  exact replaceL_skip ',' _ _ ([':', ' ', 't', 'r', 'u', 'e']) Y (by decide)

theorem skQ_3_1 (Y : List Char) :
    replaceL (strL ": False") (strL ": false") (strL ": true" ++ Y) =
      strL ": true" ++ replaceL (strL ": False") (strL ": false") Y := by
  rw [eFc, qFc, qTc]
  exact replaceL_concrete_skip _ _ _ Y (by intro n hn; simp only [List.length_cons, List.length_nil] at hn; interval_cases n <;> simp [List.isPrefixOf])

theorem skQ_4_1 (Y : List Char) :
    replaceL (strL ", False") (strL ", false") (strL ": true" ++ Y) =
      strL ": true" ++ replaceL (strL ", False") (strL ", false") Y := by
  rw [eFm, qFm, qTc]
  exact replaceL_skip ',' _ _ ([':', ' ', 't', 'r', 'u', 'e']) Y (by decide)

theorem skQ_5_1 (Y : List Char) :
    replaceL (strL ": None") (strL ": null") (strL ": true" ++ Y) =
      strL ": true" ++ replaceL (strL ": None") (strL ": null") Y := by
  rw [eNc, qNc, qTc]
  exact replaceL_concrete_skip _ _ _ Y (by intro n hn; simp only [List.length_cons, List.length_nil] at hn; interval_cases n <;> simp [List.isPrefixOf])

theorem skQ_6_1 (Y : List Char) :
    replaceL (strL ", None") (strL ", null") (strL ": true" ++ Y) =
      strL ": true" ++ replaceL (strL ", None") (strL ", null") Y := by
  rw [eNm, qNm, qTc]
  exact replaceL_skip ',' _ _ ([':', ' ', 't', 'r', 'u', 'e']) Y (by decide)

theorem skQ_3_2 (Y : List Char) :
    replaceL (strL ": False") (strL ": false") (strL ", true" ++ Y) =
      strL ", true" ++ replaceL (strL ": False") (strL ": false") Y := by
  rw [eFc, qFc, qTm]
  exact replaceL_skip ':' _ _ ([',', ' ', 't', 'r', 'u', 'e']) Y (by decide)

theorem skQ_4_2 (Y : List Char) :
    replaceL (strL ", False") (strL ", false") (strL ", true" ++ Y) =
      strL ", true" ++ replaceL (strL ", False") (strL ", false") Y := by
  rw [eFm, qFm, qTm]
  exact replaceL_concrete_skip _ _ _ Y (by intro n hn; simp only [List.length_cons, List.length_nil] at hn; interval_cases n <;> simp [List.isPrefixOf])

theorem skQ_5_2 (Y : List Char) :
    replaceL (strL ": None") (strL ": null") (strL ", true" ++ Y) =
      strL ", true" ++ replaceL (strL ": None") (strL ": null") Y := by
  rw [eNc, qNc, qTm]
  exact replaceL_skip ':' _ _ ([',', ' ', 't', 'r', 'u', 'e']) Y (by decide)

theorem skQ_6_2 (Y : List Char) :
    replaceL (strL ", None") (strL ", null") (strL ", true" ++ Y) =
      strL ", true" ++ replaceL (strL ", None") (strL ", null") Y := by
  rw [eNm, qNm, qTm]
  exact replaceL_concrete_skip _ _ _ Y (by intro n hn; simp only [List.length_cons, List.length_nil] at hn; interval_cases n <;> simp [List.isPrefixOf])

theorem skQ_4_3 (Y : List Char) :
    replaceL (strL ", False") (strL ", false") (strL ": false" ++ Y) =
      strL ": false" ++ replaceL (strL ", False") (strL ", false") Y := by
  rw [eFm, qFm, qFc]
  exact replaceL_skip ',' _ _ ([':', ' ', 'f', 'a', 'l', 's', 'e']) Y (by decide)

theorem skQ_5_3 (Y : List Char) :
    replaceL (strL ": None") (strL ": null") (strL ": false" ++ Y) =
      strL ": false" ++ replaceL (strL ": None") (strL ": null") Y := by
  rw [eNc, qNc, qFc]
  exact replaceL_concrete_skip _ _ _ Y (by intro n hn; simp only [List.length_cons, List.length_nil] at hn; interval_cases n <;> simp [List.isPrefixOf])

theorem skQ_6_3 (Y : List Char) :
    replaceL (strL ", None") (strL ", null") (strL ": false" ++ Y) =
      strL ": false" ++ replaceL (strL ", None") (strL ", null") Y := by
  rw [eNm, qNm, qFc]
  exact replaceL_skip ',' _ _ ([':', ' ', 'f', 'a', 'l', 's', 'e']) Y (by decide)

theorem skQ_5_4 (Y : List Char) :
    replaceL (strL ": None") (strL ": null") (strL ", false" ++ Y) =
      strL ", false" ++ replaceL (strL ": None") (strL ": null") Y := by
  rw [eNc, qNc, qFm]
  exact replaceL_skip ':' _ _ ([',', ' ', 'f', 'a', 'l', 's', 'e']) Y (by decide)

theorem skQ_6_4 (Y : List Char) :
    replaceL (strL ", None") (strL ", null") (strL ", false" ++ Y) =
      strL ", false" ++ replaceL (strL ", None") (strL ", null") Y := by
  rw [eNm, qNm, qFm]
  exact replaceL_concrete_skip _ _ _ Y (by intro n hn; simp only [List.length_cons, List.length_nil] at hn; interval_cases n <;> simp [List.isPrefixOf])

theorem skQ_6_5 (Y : List Char) :
    replaceL (strL ", None") (strL ", null") (strL ": null" ++ Y) =
      strL ": null" ++ replaceL (strL ", None") (strL ", null") Y := by
  rw [eNm, qNm, qNc]
  exact replaceL_skip ',' _ _ ([':', ' ', 'n', 'u', 'l', 'l']) Y (by decide)

theorem nlStep_1 (X : List Char) :
    normalizeLiterals (strL ": True" ++ X) = strL ": true" ++ normalizeLiterals X := by
  unfold normalizeLiterals
  rw [replaceL_match (strL ": True") (strL ": true") (by decide) _,
    skQ_2_1,
    skQ_3_1,
    skQ_4_1,
    skQ_5_1,
    skQ_6_1]

theorem nlStep_2 (X : List Char) :
    normalizeLiterals (strL ", True" ++ X) = strL ", true" ++ normalizeLiterals X := by
  unfold normalizeLiterals
  rw [skA_1_2,
    replaceL_match (strL ", True") (strL ", true") (by decide) _,
    skQ_3_2,
    skQ_4_2,
    skQ_5_2,
    skQ_6_2]

theorem nlStep_3 (X : List Char) :
    normalizeLiterals (strL ": False" ++ X) = strL ": false" ++ normalizeLiterals X := by
  unfold normalizeLiterals
  rw [skA_1_3,
    skA_2_3,
    replaceL_match (strL ": False") (strL ": false") (by decide) _,
    skQ_4_3,
    skQ_5_3,
    skQ_6_3]

theorem nlStep_4 (X : List Char) :
    normalizeLiterals (strL ", False" ++ X) = strL ", false" ++ normalizeLiterals X := by
  unfold normalizeLiterals
  rw [skA_1_4,
    skA_2_4,
    skA_3_4,
    replaceL_match (strL ", False") (strL ", false") (by decide) _,
    skQ_5_4,
    skQ_6_4]

theorem nlStep_5 (X : List Char) :
    normalizeLiterals (strL ": None" ++ X) = strL ": null" ++ normalizeLiterals X := by
  unfold normalizeLiterals
  rw [skA_1_5,
    skA_2_5,
    skA_3_5,
    skA_4_5,
    replaceL_match (strL ": None") (strL ": null") (by decide) _,
    skQ_6_5]

theorem nlStep_6 (X : List Char) :
    normalizeLiterals (strL ", None" ++ X) = strL ", null" ++ normalizeLiterals X := by
  unfold normalizeLiterals
  rw [skA_1_6,
    skA_2_6,
    skA_3_6,
    skA_4_6,
    skA_5_6,
    replaceL_match (strL ", None") (strL ", null") (by decide) _]

theorem lp_match_1 (s : List Char) (h : (strL ": True").isPrefixOf s = true) :
    lowerLiteralPass s = strL ": true" ++ lowerLiteralPass (s.drop 6) := by
  match s with
  | [] =>
    rw [eTc] at h
    simp [List.isPrefixOf] at h
  | c :: rest =>
    show lowerGo (rest.length + 1) (c :: rest) = _
    simp only [lowerGo, h, if_true]
    have hdp : (c :: rest).drop 6 = rest.drop 5 := rfl
    rw [hdp, lowerGo_eq rest.length _ (len_drop_le rest 5)]

theorem lp_match_2 (s : List Char) (h : (strL ", True").isPrefixOf s = true) :
    lowerLiteralPass s = strL ", true" ++ lowerLiteralPass (s.drop 6) := by
  have hd := eq_append_drop_of_prefOf h
  have hf1 : (strL ": True").isPrefixOf s = false := by
    rw [hd]
    exact npf_1_2 _
  match s with
  | [] =>
    rw [eTm] at h
    simp [List.isPrefixOf] at h
  | c :: rest =>
    show lowerGo (rest.length + 1) (c :: rest) = _
    simp only [lowerGo, hf1, h, Bool.false_eq_true, if_false, if_true]
    have hdp : (c :: rest).drop 6 = rest.drop 5 := rfl
    rw [hdp, lowerGo_eq rest.length _ (len_drop_le rest 5)]

theorem lp_match_3 (s : List Char) (h : (strL ": False").isPrefixOf s = true) :
    lowerLiteralPass s = strL ": false" ++ lowerLiteralPass (s.drop 7) := by
  have hd := eq_append_drop_of_prefOf h
  have hf1 : (strL ": True").isPrefixOf s = false := by
    rw [hd]
    exact npf_1_3 _
  have hf2 : (strL ", True").isPrefixOf s = false := by
    rw [hd]
    exact npf_2_3 _
  match s with
  | [] =>
    rw [eFc] at h
    simp [List.isPrefixOf] at h
  | c :: rest =>
    show lowerGo (rest.length + 1) (c :: rest) = _
    simp only [lowerGo, hf1, hf2, h, Bool.false_eq_true, if_false, if_true]
    have hdp : (c :: rest).drop 7 = rest.drop 6 := rfl
    rw [hdp, lowerGo_eq rest.length _ (len_drop_le rest 6)]

theorem lp_match_4 (s : List Char) (h : (strL ", False").isPrefixOf s = true) :
    lowerLiteralPass s = strL ", false" ++ lowerLiteralPass (s.drop 7) := by
  have hd := eq_append_drop_of_prefOf h
  have hf1 : (strL ": True").isPrefixOf s = false := by
    rw [hd]
    exact npf_1_4 _
  have hf2 : (strL ", True").isPrefixOf s = false := by
    rw [hd]
    exact npf_2_4 _
  have hf3 : (strL ": False").isPrefixOf s = false := by
    rw [hd]
    exact npf_3_4 _
  match s with
  | [] =>
    rw [eFm] at h
    simp [List.isPrefixOf] at h
  | c :: rest =>
    show lowerGo (rest.length + 1) (c :: rest) = _
    simp only [lowerGo, hf1, hf2, hf3, h, Bool.false_eq_true, if_false, if_true]
    have hdp : (c :: rest).drop 7 = rest.drop 6 := rfl
    rw [hdp, lowerGo_eq rest.length _ (len_drop_le rest 6)]

theorem lp_match_5 (s : List Char) (h : (strL ": None").isPrefixOf s = true) :
    lowerLiteralPass s = strL ": null" ++ lowerLiteralPass (s.drop 6) := by
  have hd := eq_append_drop_of_prefOf h
  have hf1 : (strL ": True").isPrefixOf s = false := by
    rw [hd]
    exact npf_1_5 _
  have hf2 : (strL ", True").isPrefixOf s = false := by
    rw [hd]
    exact npf_2_5 _
  have hf3 : (strL ": False").isPrefixOf s = false := by
    rw [hd]
    exact npf_3_5 _
  have hf4 : (strL ", False").isPrefixOf s = false := by
    rw [hd]
    exact npf_4_5 _
  match s with
  | [] =>
    rw [eNc] at h
    simp [List.isPrefixOf] at h
  | c :: rest =>
    show lowerGo (rest.length + 1) (c :: rest) = _
    simp only [lowerGo, hf1, hf2, hf3, hf4, h, Bool.false_eq_true, if_false, if_true]
    have hdp : (c :: rest).drop 6 = rest.drop 5 := rfl
    rw [hdp, lowerGo_eq rest.length _ (len_drop_le rest 5)]

theorem lp_match_6 (s : List Char) (h : (strL ", None").isPrefixOf s = true) :
    lowerLiteralPass s = strL ", null" ++ lowerLiteralPass (s.drop 6) := by
  have hd := eq_append_drop_of_prefOf h
  have hf1 : (strL ": True").isPrefixOf s = false := by
    rw [hd]
    exact npf_1_6 _
  have hf2 : (strL ", True").isPrefixOf s = false := by
    rw [hd]
    exact npf_2_6 _
  have hf3 : (strL ": False").isPrefixOf s = false := by
    rw [hd]
    exact npf_3_6 _
  have hf4 : (strL ", False").isPrefixOf s = false := by
    rw [hd]
    exact npf_4_6 _
  have hf5 : (strL ": None").isPrefixOf s = false := by
    rw [hd]
    exact npf_5_6 _
  match s with
  | [] =>
    rw [eNm] at h
    simp [List.isPrefixOf] at h
  | c :: rest =>
    show lowerGo (rest.length + 1) (c :: rest) = _
    simp only [lowerGo, hf1, hf2, hf3, hf4, hf5, h, Bool.false_eq_true, if_false, if_true]
    have hdp : (c :: rest).drop 6 = rest.drop 5 := rfl
    rw [hdp, lowerGo_eq rest.length _ (len_drop_le rest 5)]

theorem lp_nomatch (c : Char) (t : List Char)
    (h1 : (strL ": True").isPrefixOf (c :: t) = false)
    (h2 : (strL ", True").isPrefixOf (c :: t) = false)
    (h3 : (strL ": False").isPrefixOf (c :: t) = false)
    (h4 : (strL ", False").isPrefixOf (c :: t) = false)
    (h5 : (strL ": None").isPrefixOf (c :: t) = false)
    (h6 : (strL ", None").isPrefixOf (c :: t) = false) :
    lowerLiteralPass (c :: t) = c :: lowerLiteralPass t := by
  show lowerGo (t.length + 1) (c :: t) = _
  simp only [lowerGo, h1, h2, h3, h4, h5, h6, Bool.false_eq_true, if_false]
  rw [lowerGo_eq t.length t le_rfl]

/-- C7: on every input string, the literal-normalization stage of the repair
pipeline (six sequential substring replacements) coincides with the single
left-to-right pass `lowerLiteralPass` that, wherever one of the six sequences
`": True"`, `", True"`, `": False"`, `", False"`, `": None"`, `", None"`
starts, emits its lowercased form (`True` to `true`, `False` to `false`,
`None` to `null`) and skips it, copying every other character unchanged.
Hence a literal is rewritten exactly when immediately preceded by colon-space
or comma-space, even mid-word or inside string content, and occurrences
preceded by a colon or comma without the space are left unchanged. -/
theorem literal_normalization_amended (s : List Char) :
    normalizeLiterals s = lowerLiteralPass s := by
  suffices H : ∀ n u, u.length = n → normalizeLiterals u = lowerLiteralPass u from
    H s.length s rfl
  intro n
  induction n using Nat.strong_induction_on with
  | _ n ih =>
    intro s hlen
    by_cases h1 : (strL ": True").isPrefixOf s = true
    · have hd : s = strL ": True" ++ s.drop 6 := by
        have h0 := eq_append_drop_of_prefOf h1
        rwa [show (strL ": True").length = 6 from rfl] at h0
      have hsl : 6 ≤ s.length := by
        have h0 := (prefOf_iff.1 h1).length_le
        rwa [show (strL ": True").length = 6 from rfl] at h0
      have hlt : (s.drop 6).length < n := by
        rw [List.length_drop]
        omega
      conv_lhs => rw [hd]
      rw [nlStep_1, lp_match_1 s h1, ih _ hlt _ rfl]
    ·
      by_cases h2 : (strL ", True").isPrefixOf s = true
      · have hd : s = strL ", True" ++ s.drop 6 := by
          have h0 := eq_append_drop_of_prefOf h2
          rwa [show (strL ", True").length = 6 from rfl] at h0
        have hsl : 6 ≤ s.length := by
          have h0 := (prefOf_iff.1 h2).length_le
          rwa [show (strL ", True").length = 6 from rfl] at h0
        have hlt : (s.drop 6).length < n := by
          rw [List.length_drop]
          omega
        conv_lhs => rw [hd]
        rw [nlStep_2, lp_match_2 s h2, ih _ hlt _ rfl]
      ·
        by_cases h3 : (strL ": False").isPrefixOf s = true
        · have hd : s = strL ": False" ++ s.drop 7 := by
            have h0 := eq_append_drop_of_prefOf h3
            rwa [show (strL ": False").length = 7 from rfl] at h0
          have hsl : 7 ≤ s.length := by
            have h0 := (prefOf_iff.1 h3).length_le
            rwa [show (strL ": False").length = 7 from rfl] at h0
          have hlt : (s.drop 7).length < n := by
            rw [List.length_drop]
            omega
          conv_lhs => rw [hd]
          rw [nlStep_3, lp_match_3 s h3, ih _ hlt _ rfl]
        ·
          by_cases h4 : (strL ", False").isPrefixOf s = true
          · have hd : s = strL ", False" ++ s.drop 7 := by
              have h0 := eq_append_drop_of_prefOf h4
              rwa [show (strL ", False").length = 7 from rfl] at h0
            have hsl : 7 ≤ s.length := by
              have h0 := (prefOf_iff.1 h4).length_le
              rwa [show (strL ", False").length = 7 from rfl] at h0
            have hlt : (s.drop 7).length < n := by
              rw [List.length_drop]
              omega
            conv_lhs => rw [hd]
            rw [nlStep_4, lp_match_4 s h4, ih _ hlt _ rfl]
          ·
            by_cases h5 : (strL ": None").isPrefixOf s = true
            · have hd : s = strL ": None" ++ s.drop 6 := by
                have h0 := eq_append_drop_of_prefOf h5
                rwa [show (strL ": None").length = 6 from rfl] at h0
              have hsl : 6 ≤ s.length := by
                have h0 := (prefOf_iff.1 h5).length_le
                rwa [show (strL ": None").length = 6 from rfl] at h0
              have hlt : (s.drop 6).length < n := by
                rw [List.length_drop]
                omega
              conv_lhs => rw [hd]
              rw [nlStep_5, lp_match_5 s h5, ih _ hlt _ rfl]
            ·
              by_cases h6 : (strL ", None").isPrefixOf s = true
              · have hd : s = strL ", None" ++ s.drop 6 := by
                  have h0 := eq_append_drop_of_prefOf h6
                  rwa [show (strL ", None").length = 6 from rfl] at h0
                have hsl : 6 ≤ s.length := by
                  have h0 := (prefOf_iff.1 h6).length_le
                  rwa [show (strL ", None").length = 6 from rfl] at h0
                have hlt : (s.drop 6).length < n := by
                  rw [List.length_drop]
                  omega
                conv_lhs => rw [hd]
                rw [nlStep_6, lp_match_6 s h6, ih _ hlt _ rfl]
              ·
                match s with
                | [] => rfl
                | c :: t =>
                  have h1f := notTrue_eq_false h1
                  have h2f := notTrue_eq_false h2
                  have h3f := notTrue_eq_false h3
                  have h4f := notTrue_eq_false h4
                  have h5f := notTrue_eq_false h5
                  have h6f := notTrue_eq_false h6
                  have h2x : (strL ", True").isPrefixOf (c :: replaceL (strL ": True") (strL ": true") t) = false :=
                    pref_cons_chain_false _ (by decide) c t _
                      (fun hp =>
                        prefTransfer (strL ", True") (strL ": True") (strL ": true")
                          (by decide) (by decide) t 1 (by decide)
                          (hp))
                      h2f
                  have h3x : (strL ": False").isPrefixOf (c :: replaceL (strL ", True") (strL ", true") (replaceL (strL ": True") (strL ": true") t)) = false :=
                    pref_cons_chain_false _ (by decide) c t _
                      (fun hp =>
                        prefTransfer (strL ": False") (strL ": True") (strL ": true")
                          (by decide) (by decide) t 1 (by decide)
                          (prefTransfer (strL ": False") (strL ", True") (strL ", true")
                          (by decide) (by decide) (replaceL (strL ": True") (strL ": true") t) 1 (by decide)
                          (hp)))
                      h3f
                  have h4x : (strL ", False").isPrefixOf (c :: replaceL (strL ": False") (strL ": false") (replaceL (strL ", True") (strL ", true") (replaceL (strL ": True") (strL ": true") t))) = false :=
                    pref_cons_chain_false _ (by decide) c t _
                      (fun hp =>
                        prefTransfer (strL ", False") (strL ": True") (strL ": true")
                          (by decide) (by decide) t 1 (by decide)
                          (prefTransfer (strL ", False") (strL ", True") (strL ", true")
                          (by decide) (by decide) (replaceL (strL ": True") (strL ": true") t) 1 (by decide)
                          (prefTransfer (strL ", False") (strL ": False") (strL ": false")
                          (by decide) (by decide) (replaceL (strL ", True") (strL ", true") (replaceL (strL ": True") (strL ": true") t)) 1 (by decide)
                          (hp))))
                      h4f
                  have h5x : (strL ": None").isPrefixOf (c :: replaceL (strL ", False") (strL ", false") (replaceL (strL ": False") (strL ": false") (replaceL (strL ", True") (strL ", true") (replaceL (strL ": True") (strL ": true") t)))) = false :=
                    pref_cons_chain_false _ (by decide) c t _
                      (fun hp =>
                        prefTransfer (strL ": None") (strL ": True") (strL ": true")
                          (by decide) (by decide) t 1 (by decide)
                          (prefTransfer (strL ": None") (strL ", True") (strL ", true")
                          (by decide) (by decide) (replaceL (strL ": True") (strL ": true") t) 1 (by decide)
                          (prefTransfer (strL ": None") (strL ": False") (strL ": false")
                          (by decide) (by decide) (replaceL (strL ", True") (strL ", true") (replaceL (strL ": True") (strL ": true") t)) 1 (by decide)
                          (prefTransfer (strL ": None") (strL ", False") (strL ", false")
                          (by decide) (by decide) (replaceL (strL ": False") (strL ": false") (replaceL (strL ", True") (strL ", true") (replaceL (strL ": True") (strL ": true") t))) 1 (by decide)
                          (hp)))))
                      h5f
                  have h6x : (strL ", None").isPrefixOf (c :: replaceL (strL ": None") (strL ": null") (replaceL (strL ", False") (strL ", false") (replaceL (strL ": False") (strL ": false") (replaceL (strL ", True") (strL ", true") (replaceL (strL ": True") (strL ": true") t))))) = false :=
                    pref_cons_chain_false _ (by decide) c t _
                      (fun hp =>
                        prefTransfer (strL ", None") (strL ": True") (strL ": true")
                          (by decide) (by decide) t 1 (by decide)
                          (prefTransfer (strL ", None") (strL ", True") (strL ", true")
                          (by decide) (by decide) (replaceL (strL ": True") (strL ": true") t) 1 (by decide)
                          (prefTransfer (strL ", None") (strL ": False") (strL ": false")
                          (by decide) (by decide) (replaceL (strL ", True") (strL ", true") (replaceL (strL ": True") (strL ": true") t)) 1 (by decide)
                          (prefTransfer (strL ", None") (strL ", False") (strL ", false")
                          (by decide) (by decide) (replaceL (strL ": False") (strL ": false") (replaceL (strL ", True") (strL ", true") (replaceL (strL ": True") (strL ": true") t))) 1 (by decide)
                          (prefTransfer (strL ", None") (strL ": None") (strL ": null")
                          (by decide) (by decide) (replaceL (strL ", False") (strL ", false") (replaceL (strL ": False") (strL ": false") (replaceL (strL ", True") (strL ", true") (replaceL (strL ": True") (strL ": true") t)))) 1 (by decide)
                          (hp))))))
                      h6f
                  have hlt : t.length < n := by
                    have hl : (c :: t).length = n := hlen
                    simp only [List.length_cons] at hl
                    omega
                  rw [lp_nomatch c t h1f h2f h3f h4f h5f h6f]
                  unfold normalizeLiterals
                  rw [replaceL_cons_neg _ _ _ _ h1f]
                  rw [replaceL_cons_neg _ _ _ _ h2x]
                  rw [replaceL_cons_neg _ _ _ _ h3x]
                  rw [replaceL_cons_neg _ _ _ _ h4x]
                  rw [replaceL_cons_neg _ _ _ _ h5x]
                  rw [replaceL_cons_neg _ _ _ _ h6x]
                  exact congrArg (List.cons c) (ih t.length hlt t rfl)

end AuraCore
